import Mathlib

/-!
Verification development for the Darktide Scoreboard Tracker ingestion parser
and storage/query layer. The definitions below are a shallow embedding of the
JavaScript sources (parser.js, db.js, and the shared helpers of app.js):
JS strings are Lean `String`s manipulated through their character lists,
JS numbers that can be NaN are `Option Int` (parseInt) or `Option JVal`
(parseFloat, where NaN is `none`), JS objects used as ordered string maps are
association lists with write-in-place/append-at-end update (`setA`), JS Sets
are duplicate-free lists in insertion order, and the SQLite tables are lists
of typed rows inside a `Store` record.
-/

set_option maxRecDepth 100000

namespace DST

/-- Result of the JS `parseFloat` when it is not NaN: a finite rational or an
infinity (JS `parseFloat` accepts an "Infinity" literal). -/
inductive JVal where
  | num (q : Rat)
  | inf
  | negInf
deriving DecidableEq

/-- Whitespace characters recognized by the modelled JS `trim`. -/
def isWsChar (c : Char) : Bool :=
  c = ' ' || c = '\t' || c = '\n' || c = '\r' || c = '\x0b' || c = '\x0c'

/-- Characters matched by the JS regex class w (ASCII word characters). -/
def isWordChar (c : Char) : Bool :=
  c.isAlphanum || c = '_'

/-- Strip leading and trailing whitespace from a character list. -/
def trimChars (l : List Char) : List Char :=
  ((l.dropWhile isWsChar).reverse.dropWhile isWsChar).reverse

/-- JS `String.prototype.trim`. -/
def trimJS (s : String) : String := ⟨trimChars s.data⟩

/-- Helper for `splitOnChar`: the accumulator holds the current field reversed. -/
def splitOnCharAux (sep : Char) : List Char → List Char → List (List Char)
  | [], acc => [acc.reverse]
  | c :: rest, acc =>
    if c = sep then acc.reverse :: splitOnCharAux sep rest []
    else splitOnCharAux sep rest (c :: acc)

/-- Split a character list on a separator; like JS `split`, the result is
never empty and keeps empty fields. -/
def splitOnChar (sep : Char) (l : List Char) : List (List Char) :=
  splitOnCharAux sep l []

/-- JS `String.prototype.split` with a one-character separator. -/
def jsSplit (sep : Char) (s : String) : List String :=
  (splitOnChar sep s.data).map (fun l => ⟨l⟩)

/-- Normalize CRLF line endings to LF, as in `content.replace` with a CRLF
pattern in `parseLuaContent`. -/
def replaceCRLFChars : List Char → List Char
  | [] => []
  | '\r' :: '\n' :: rest => '\n' :: replaceCRLFChars rest
  | c :: rest => c :: replaceCRLFChars rest

/-- Boolean prefix test on character lists. -/
def isPrefixChars : List Char → List Char → Bool
  | [], _ => true
  | _ :: _, [] => false
  | a :: as, b :: bs => a = b && isPrefixChars as bs

/-- JS `String.prototype.startsWith`. -/
def startsWithJS (pre s : String) : Bool := isPrefixChars pre.data s.data

/-- Accumulate the value of a list of decimal digit characters. -/
def digitsToNat : List Char → Nat → Nat
  | [], acc => acc
  | c :: rest, acc => digitsToNat rest (acc * 10 + (c.toNat - 48))

/-- JS `parseInt(s, 10)`: skip leading whitespace, read an optional sign and
the longest run of decimal digits; NaN (here `none`) when no digit is found.
Later non-digit characters are ignored, so `parseInt` of "123abc" is 123. -/
def parseIntJS (s : String) : Option Int :=
  let l := s.data.dropWhile isWsChar
  let signed : Bool × List Char :=
    match l with
    | '-' :: rest => (true, rest)
    | '+' :: rest => (false, rest)
    | _ => (false, l)
  let ds := signed.2.takeWhile Char.isDigit
  if ds.isEmpty then none
  else
    let n : Int := Int.ofNat (digitsToNat ds 0)
    some (if signed.1 then -n else n)

/-- Multiply a rational by a (possibly negative) power of ten. -/
def expPow (q : Rat) (e : Int) : Rat :=
  if 0 ≤ e then q * (10 : Rat) ^ e.toNat else q / (10 : Rat) ^ (-e).toNat

/-- Apply the exponent part of a JS float literal; an exponent marker without
digits is not part of the parsed prefix and leaves the value unchanged. -/
def applyExp (base : Rat) (r : List Char) : Rat :=
  let signed : Bool × List Char :=
    match r with
    | '-' :: t => (true, t)
    | '+' :: t => (false, t)
    | _ => (false, r)
  let eds := signed.2.takeWhile Char.isDigit
  if eds.isEmpty then base
  else
    let e : Int := Int.ofNat (digitsToNat eds 0)
    expPow base (if signed.1 then -e else e)

/-- JS `parseFloat`: longest numeric-literal prefix after optional whitespace
and sign; `none` models NaN. -/
def parseFloatJS (s : String) : Option JVal :=
  let l := s.data.dropWhile isWsChar
  let signed : Bool × List Char :=
    match l with
    | '-' :: rest => (true, rest)
    | '+' :: rest => (false, rest)
    | _ => (false, l)
  if isPrefixChars "Infinity".data signed.2 then
    some (if signed.1 then JVal.negInf else JVal.inf)
  else
    let ip := signed.2.takeWhile Char.isDigit
    let rest1 := signed.2.drop ip.length
    let fpRest : List Char × List Char :=
      match rest1 with
      | '.' :: r => (r.takeWhile Char.isDigit, r.drop (r.takeWhile Char.isDigit).length)
      | _ => ([], rest1)
    if ip.isEmpty && fpRest.1.isEmpty then none
    else
      let mant : Rat := (Int.ofNat (digitsToNat (ip ++ fpRest.1) 0) : Int)
      let base : Rat := expPow mant (-(fpRest.1.length : Int))
      let withExp : Rat :=
        match fpRest.2 with
        | 'e' :: r => applyExp base r
        | 'E' :: r => applyExp base r
        | _ => base
      some (JVal.num (if signed.1 then -withExp else withExp))

/-- Lowercase hexadecimal digit, as in the UUID pattern `[0-9a-f]`. -/
def isHexLower (c : Char) : Bool := c.isDigit || ('a' ≤ c && c ≤ 'f')

/-- Consume exactly `n` lowercase hex digits, returning the remainder. -/
def hexRun : Nat → List Char → Option (List Char)
  | 0, l => some l
  | n + 1, c :: rest => if isHexLower c then hexRun n rest else none
  | _ + 1, [] => none

/-- The `isUuid` helper: anchored match of the 8-4-4-4-12 lowercase-hex UUID
pattern. -/
def isUuid (s : String) : Bool :=
  match hexRun 8 s.data with
  | some ('-' :: r1) =>
    (match hexRun 4 r1 with
     | some ('-' :: r2) =>
       (match hexRun 4 r2 with
        | some ('-' :: r3) =>
          (match hexRun 4 r3 with
           | some ('-' :: r4) =>
             (match hexRun 12 r4 with
              | some [] => true
              | _ => false)
           | _ => false)
        | _ => false)
     | _ => false)
  | _ => false

/-- Literal text of the color-reset markup token. -/
def resetPat : List Char := "\x7b#reset()\x7d".data

/-- Literal opening of the color markup token, up to its argument. -/
def colorOpenPat : List Char := "\x7b#color(".data

/-- After the opening of a color token, consume the argument (any characters
other than a closing parenthesis) and the closing parenthesis-brace pair. -/
def consumeColorClose (l : List Char) : Option (List Char) :=
  match l.dropWhile (fun c => c ≠ ')') with
  | ')' :: '\x7d' :: r => some r
  | _ => none

/-- Fueled scanner for the global color-markup removal; each step consumes at
least one character, so fuel equal to the input length always suffices. -/
def stripColorAux : Nat → List Char → List Char
  | 0, l => l
  | _, [] => []
  | fuel + 1, c :: rest =>
    if isPrefixChars colorOpenPat (c :: rest) then
      match consumeColorClose ((c :: rest).drop colorOpenPat.length) with
      | some rem => stripColorAux fuel rem
      | none => c :: stripColorAux fuel rest
    else if isPrefixChars resetPat (c :: rest) then
      stripColorAux fuel ((c :: rest).drop resetPat.length)
    else c :: stripColorAux fuel rest

/-- The `stripColorCodes` helper: remove all inline color markup, then trim. -/
def stripColorCodes (s : String) : String :=
  trimJS ⟨stripColorAux s.data.length s.data⟩

/-- Fueled global literal replacement, as in JS `replace` with a global
pattern and a plain string pattern. -/
def replaceAllAux (pat rep : List Char) : Nat → List Char → List Char
  | 0, l => l
  | _, [] => []
  | fuel + 1, c :: rest =>
    if pat.isEmpty then c :: rest
    else if isPrefixChars pat (c :: rest) then
      rep ++ replaceAllAux pat rep fuel ((c :: rest).drop pat.length)
    else c :: replaceAllAux pat rep fuel rest

/-- Replace every occurrence of a literal pattern. -/
def replaceAll (pat rep l : List Char) : List Char :=
  replaceAllAux pat rep l.length l

/-- The `generateBotIdentifier` helper: strip color markup, lowercase, remove
bot markers, turn spaces into underscores, strip edge underscores, and prefix
the result. -/
def generateBotIdentifier (rawBotName : String) : String :=
  let stripped := stripColorCodes rawBotName
  let lowered := stripped.data.map Char.toLower
  let noBot := replaceAll "[bot]".data [] lowered
  let underscored := noBot.map (fun c => if c = ' ' then '_' else c)
  let sanitized :=
    ((underscored.dropWhile (fun c => c = '_')).reverse.dropWhile
      (fun c => c = '_')).reverse
  ⟨"bot_".data ++ sanitized⟩

/-- Capitalize every word character that sits at a word boundary, mirroring
the JS replace of a boundary-word-char pattern with its uppercase. -/
def capitalizeWordsAux : Bool → List Char → List Char
  | _, [] => []
  | prevWord, c :: rest =>
    (if !prevWord && isWordChar c then c.toUpper else c) ::
      capitalizeWordsAux (isWordChar c) rest

/-- The `cleanDisplayName` helper: humanize angle-bracket wrapped lowercase
snake-case internal names. -/
def cleanDisplayName (name : String) : String :=
  let l := name.data
  if l.head? = some '<' && l.getLast? = some '>' then
    let inner := (l.drop 1).dropLast
    if inner.contains '_' && inner.map Char.toLower = inner then
      ⟨capitalizeWordsAux false (inner.map (fun c => if c = '_' then ' ' else c))⟩
    else ⟨inner⟩
  else name

/-- Word-character test lifted to an optional character (out of range counts
as a non-word character for JS word boundaries). -/
def isWordOpt : Option Char → Bool
  | some c => isWordChar c
  | none => false

/-- JS word boundary between two adjacent (possibly absent) characters. -/
def boundaryB (a b : Option Char) : Bool := isWordOpt a != isWordOpt b

/-- Does the needle match at the head of `l` with word boundaries on both
sides, the previous character being `prev`. -/
def matchesAt (needle : List Char) (prev : Option Char) (l : List Char) : Bool :=
  match needle with
  | [] => boundaryB prev l.head?
  | f :: fs =>
    isPrefixChars needle l &&
    boundaryB prev (some f) &&
    boundaryB (some ((f :: fs).getLastD f)) ((l.drop needle.length).head?)

/-- Replace the first whole-word occurrence of `needle` by `rep`; `none` when
there is no occurrence. Fuel equal to the scanned length suffices. -/
def wwReplaceFirstAux (needle rep : List Char) :
    Nat → Option Char → List Char → Option (List Char)
  | _, prev, [] => if matchesAt needle prev [] then some rep else none
  | 0, _, _ :: _ => none
  | fuel + 1, prev, c :: rest =>
    if matchesAt needle prev (c :: rest) then
      some (rep ++ (c :: rest).drop needle.length)
    else
      match wwReplaceFirstAux needle rep fuel (some c) rest with
      | some r => some (c :: r)
      | none => none

/-- JS `replace` with a non-global whole-word regex built from a literal. -/
def wwReplaceFirst (needle rep l : List Char) : List Char :=
  (wwReplaceFirstAux needle rep l.length none l).getD l

/-- JS `test` of a whole-word regex built from a literal. -/
def wwTest (needle l : List Char) : Bool :=
  (wwReplaceFirstAux needle needle l.length none l).isSome

/-- Collapse every whitespace run into a single space (JS replace of a
whitespace-run pattern by a space). -/
def collapseWsAux : Nat → List Char → List Char
  | 0, l => l
  | _, [] => []
  | fuel + 1, c :: rest =>
    if isWsChar c then ' ' :: collapseWsAux fuel (rest.dropWhile isWsChar)
    else c :: collapseWsAux fuel rest

/-- Collapse whitespace runs to single spaces. -/
def collapseWs (l : List Char) : List Char := collapseWsAux l.length l

/-- The `expandChildDisplayName` helper: rewrite a single-word child display
name occurring inside its parent display name, removing sibling names. -/
def expandChildDisplayName (childDisplay parentDisplay : String)
    (siblingDisplays : List String) : String :=
  if (splitOnChar ' ' childDisplay.data).length > 1 then childDisplay
  else if !(wwTest childDisplay.data parentDisplay.data) then childDisplay
  else
    let r0 := replaceAll " / ".data " ".data parentDisplay.data
    let r1 := siblingDisplays.foldl (fun acc sib => wwReplaceFirst sib.data [] acc) r0
    let r2 := trimChars (collapseWs r1)
    if r2.isEmpty then childDisplay else ⟨r2⟩

/-! ### Ordered association lists (JS objects used as string-keyed maps) -/

/-- First-match lookup in an association list (JS property read). -/
def lookupA {κ β : Type} [DecidableEq κ] (k : κ) : List (κ × β) → Option β
  | [] => none
  | e :: rest => if e.1 = k then some e.2 else lookupA k rest

/-- JS property assignment: overwrite the first binding in place, else append
a new binding at the end (JS objects keep insertion order). -/
def setA {κ β : Type} [DecidableEq κ] (k : κ) (v : β) :
    List (κ × β) → List (κ × β)
  | [] => [(k, v)]
  | e :: rest => if e.1 = k then (k, v) :: rest else e :: setA k v rest

/-- Modify the first binding of a key in place; no effect if the key is
absent (used for JS field mutation on an existing entry). -/
def modifyA {κ β : Type} [DecidableEq κ] (k : κ) (f : β → β) :
    List (κ × β) → List (κ × β)
  | [] => []
  | e :: rest => if e.1 = k then (e.1, f e.2) :: rest else e :: modifyA k f rest

/-! ### Parser data model -/

/-- One property row of `game.propertyMetadata` as built by `parseRowSection`.
`rowOrder` is `Option Int` because JS `parseInt` may produce NaN; `groupId`
and `groupName` are `Option String` because a group directive without fields
sets the current group to the JS `undefined` read `parts[1]`. -/
structure PropMeta where
  displayName : String
  groupId : Option String
  groupName : Option String
  sortDirection : String
  isSummary : Bool
  parentId : Option String
  childIds : Option String
  rowOrder : Option Int
  visible : Bool
  pluginId : String
deriving DecidableEq

/-- The draft match record built by `parseLuaContent`. Players are
(slot, id, name) with `Option Int` slot (NaN possible); `discoveredBots` maps
synthetic bot id to stripped display name; `discoveredExtraPlayers` is a JS
Set modelled as a duplicate-free insertion-ordered list. -/
structure GameDraft where
  filename : String
  timestamp : Int
  missionId : String
  difficulty : Option Int
  modifier : String
  result : String
  durationSeconds : Option Int
  players : List (Option Int × String × String)
  propertyMetadata : List (String × PropMeta)
  scores : List (String × String × JVal)
  discoveredBots : List (String × String)
  discoveredExtraPlayers : List String
deriving DecidableEq

/-- Parser state threaded through the directive loop: the draft record plus
the set of registered player ids. -/
structure PState where
  game : GameDraft
  known : List String
deriving DecidableEq

/-- The `parseMissionLine` function of parser.js. -/
def parseMissionLine (line : String) (g : GameDraft) : GameDraft :=
  let parts := jsSplit ';' line
  if parts.length < 3 then g
  else
    let rawModifier := if parts.length > 3 then parts.getD 3 "" else ""
    { g with
      missionId := trimJS (parts.getD 1 ""),
      difficulty := parseIntJS (parts.getD 2 ""),
      modifier :=
        if rawModifier = "nil" || rawModifier = "default" || rawModifier = ""
        then "" else rawModifier,
      result := if parts.length > 4 then parts.getD 4 "" else "unknown",
      durationSeconds :=
        if parts.length > 5 then parseIntJS (parts.getD 5 "") else some 0 }

/-- The per-player loop of `parsePlayersSection`; the index is incremented
before each read, and a short line is consumed but skipped. -/
def playersLoop : Nat → List String → Nat → PState → Nat × PState
  | 0, _, idx, st => (idx, st)
  | n + 1, lines, idx, st =>
    let idxNext := idx + 1
    match lines.get? idxNext with
    | none => (idxNext, st)
    | some l =>
      let pp := jsSplit ';' (trimJS l)
      if pp.length < 2 then playersLoop n lines idxNext st
      else
        let slot := parseIntJS (pp.getD 0 "")
        let playerId := pp.getD 1 ""
        let playerName := if pp.length > 2 then pp.getD 2 "" else "Unknown"
        playersLoop n lines idxNext
          { game := { st.game with
              players := st.game.players ++ [(slot, playerId, playerName)] },
            known :=
              if playerId ∈ st.known then st.known else st.known ++ [playerId] }

/-- The `parsePlayersSection` function of parser.js; returns the updated line
index. -/
def parsePlayersSection (lines : List String) (idx : Nat) (st : PState) :
    Nat × PState :=
  let parts := jsSplit ';' (trimJS (lines.getD idx ""))
  if parts.length < 2 then (idx, st)
  else
    let cnt :=
      match parseIntJS (parts.getD 1 "") with
      | some k => k.toNat
      | none => 0
    playersLoop cnt lines idx st

/-- Participant resolution for one data line of a row block: a UUID-shaped
token is a genuine player id, anything else derives a synthetic bot id. -/
def resolvePlayerId (known : List String) (raw : String) : String :=
  if isUuid raw then raw else generateBotIdentifier raw

/-- The data-line loop of `parseRowSection`: consume up to the declared count
of value lines; an empty line or a new directive backs up one line and ends
the block; a value that fails numeric parsing is skipped. -/
def dataLoop (known : List String) (rowId : String) :
    Nat → List String → Nat → GameDraft → Nat × GameDraft
  | 0, _, idx, g => (idx, g)
  | n + 1, lines, idx, g =>
    let idxNext := idx + 1
    match lines.get? idxNext with
    | none => (idxNext, g)
    | some rawLine =>
      let dataLine := trimJS rawLine
      if dataLine = "" || startsWithJS "#" dataLine then (idxNext - 1, g)
      else
        let dataParts := jsSplit ';' dataLine
        let value :=
          match dataParts.get? 1 with
          | some v => parseFloatJS v
          | none => none
        match value with
        | none => dataLoop known rowId n lines idxNext g
        | some v =>
          let raw := dataParts.getD 0 ""
          let g1 :=
            if isUuid raw then
              if raw ∈ known then g
              else
                { g with discoveredExtraPlayers :=
                    if raw ∈ g.discoveredExtraPlayers then g.discoveredExtraPlayers
                    else g.discoveredExtraPlayers ++ [raw] }
            else
              let bots := setA (generateBotIdentifier raw) (stripColorCodes raw) g.discoveredBots
              { g with discoveredBots := bots }
          dataLoop known rowId n lines idxNext
            { g1 with scores := g1.scores ++ [(rowId, resolvePlayerId known raw, v)] }

/-- The `parseRowSection` function of parser.js: build the property metadata
entry from the header fields and consume the declared data lines. -/
def parseRowSection (lines : List String) (idx : Nat) (line : String)
    (st : PState) (currentGroupId currentGroupName : Option String) :
    Nat × PState :=
  let parts := jsSplit ';' line
  if parts.length < 2 then (idx, st)
  else
    let rowId := parts.getD 1 ""
    let rowOrder := if parts.length > 2 then parseIntJS (parts.getD 2 "") else some 0
    let dataLineCount :=
      if parts.length > 3 then parseIntJS (parts.getD 3 "") else some 0
    let displayName :=
      if parts.length > 4 then cleanDisplayName (parts.getD 4 "") else rowId
    let sortDirection := if parts.length > 5 then parts.getD 5 "" else "ASC"
    let flagField := if parts.length > 7 then parts.getD 7 "" else "nil"
    let pluginId := if parts.length > 9 then parts.getD 9 "" else ""
    let parentIdRaw := if parts.length > 10 then parts.getD 10 "" else "nil"
    let childIdsRaw := if parts.length > 12 then parts.getD 12 "" else "nil"
    let parentId := if parentIdRaw = "nil" then none else some parentIdRaw
    let childIds := if childIdsRaw = "nil" then none else some childIdsRaw
    let isSummary :=
      match childIds with
      | some s => s.data.contains ':'
      | none => false
    let meta : PropMeta :=
      { displayName := displayName, groupId := currentGroupId,
        groupName := currentGroupName, sortDirection := sortDirection,
        isSummary := isSummary, parentId := parentId, childIds := childIds,
        rowOrder := rowOrder, visible := flagField ≠ "false",
        pluginId := pluginId }
    let g0 :=
      { st.game with propertyMetadata := setA rowId meta st.game.propertyMetadata }
    let cnt :=
      match dataLineCount with
      | some k => k.toNat
      | none => 0
    let r := dataLoop st.known rowId cnt lines idx g0
    (r.1, { st with game := r.2 })

/-! ### Hierarchy post-pass -/

/-- Ascending comparison on candidate child-list lengths: the JS comparator
subtracting the second components, which sorts ascending and (with the
required stable JS sort) keeps declaration order on ties. -/
def candLe (a b : String × Nat) : Prop := a.2 ≤ b.2

instance : DecidableRel candLe := fun a b =>
  inferInstanceAs (Decidable (a.2 ≤ b.2))

instance : IsTotal (String × Nat) candLe := ⟨fun a b => Nat.le_total a.2 b.2⟩

instance : IsTrans (String × Nat) candLe :=
  ⟨fun _ _ _ h1 h2 => Nat.le_trans h1 h2⟩

/-- Record one parenting candidate for a child id (push onto the existing
list, or create a fresh entry at the end). -/
def pushCand (acc : List (String × List (String × Nat))) (childId : String)
    (pair : String × Nat) : List (String × List (String × Nat)) :=
  match lookupA childId acc with
  | some l => setA childId (l ++ [pair]) acc
  | none => acc ++ [(childId, [pair])]

/-- Candidate recording for one listed child id: the child must exist in the
metadata and be parentless. -/
def candChildStep (props : List (String × PropMeta)) (rowId : String)
    (childCount : Nat) (acc2 : List (String × List (String × Nat)))
    (childId : String) : List (String × List (String × Nat)) :=
  match lookupA childId props with
  | some cm =>
    if cm.parentId = none then pushCand acc2 childId (rowId, childCount)
    else acc2
  | none => acc2

/-- Candidate recording for one property: iterate its (truthy) childIds
list, tagging candidates with the list length. -/
def candEntryStep (props : List (String × PropMeta))
    (acc : List (String × List (String × Nat))) (e : String × PropMeta) :
    List (String × List (String × Nat)) :=
  match e.2.childIds with
  | none => acc
  | some s =>
    if s = "" then acc
    else
      let childList := jsSplit ':' s
      childList.foldl (candChildStep props e.1 childList.length) acc

/-- First loop of `linkOrphanedChildren`: for every property with a (truthy)
childIds list, every listed child that exists and is parentless gets the
property recorded as a candidate, tagged with the list length. -/
def collectCandidates (props : List (String × PropMeta)) :
    List (String × List (String × Nat)) :=
  props.foldl (candEntryStep props) []

/-- Parent assignment for one candidate entry: sort the options by list
length (stable, so declaration order breaks ties) and take the first. -/
def candAssignStep (ps : List (String × PropMeta))
    (ce : String × List (String × Nat)) : List (String × PropMeta) :=
  match (List.insertionSort candLe ce.2).head? with
  | some best => modifyA ce.1 (fun m => { m with parentId := some best.1 }) ps
  | none => ps

/-- Second loop of `linkOrphanedChildren`: every candidate child takes the
best candidate as its parent. -/
def applyCandidates (props : List (String × PropMeta))
    (cands : List (String × List (String × Nat))) : List (String × PropMeta) :=
  cands.foldl candAssignStep props

/-- One step of plugin-parent collection: a visible, parentless property
with a (truthy) plugin id is recorded, overwriting earlier holders. -/
def pluginParentStep (acc : List (String × String)) (e : String × PropMeta) :
    List (String × String) :=
  if e.2.pluginId ≠ "" && e.2.visible && e.2.parentId = none then
    setA e.2.pluginId e.1 acc
  else acc

/-- Plugin-parent collection of `linkOrphanedChildren`: visible, parentless
properties with a plugin id, later declarations overwriting earlier ones. -/
def collectPluginParents (props : List (String × PropMeta)) :
    List (String × String) :=
  props.foldl pluginParentStep []

/-- The per-property rewrite of the plugin fallback: a still-parentless
invisible property with a plugin id attaches to the recorded plugin parent,
unless that is the property itself. -/
def pluginFallbackFn (pluginParents : List (String × String))
    (e : String × PropMeta) : String × PropMeta :=
  if e.2.parentId ≠ none || e.2.visible then e
  else if e.2.pluginId ≠ "" then
    match lookupA e.2.pluginId pluginParents with
    | some p => if p ≠ e.1 then (e.1, { e.2 with parentId := some p }) else e
    | none => e
  else e

/-- Plugin fallback of `linkOrphanedChildren`. -/
def applyPluginFallback (props : List (String × PropMeta)) :
    List (String × PropMeta) :=
  props.map (pluginFallbackFn (collectPluginParents props))

/-- The `linkOrphanedChildren` function of parser.js. -/
def linkOrphanedChildren (g : GameDraft) : GameDraft :=
  let props1 := applyCandidates g.propertyMetadata (collectCandidates g.propertyMetadata)
  { g with propertyMetadata := applyPluginFallback props1 }

/-- JS truthiness of the nullable parentId string. -/
def parentTruthy : Option String → Bool
  | some s => s ≠ ""
  | none => false

/-- One step of `expandChildDisplayNames` for the property `rowId`: rewrite
its display name from the (current) parent display name, the sibling raw
names and its own raw name. -/
def expandStep (rawNames : List (String × String))
    (acc : List (String × PropMeta)) (rowId : String) :
    List (String × PropMeta) :=
  match lookupA rowId acc with
  | none => acc
  | some m =>
    if parentTruthy m.parentId then
      match m.parentId with
      | none => acc
      | some pid =>
        match lookupA pid acc with
        | none => acc
        | some pm =>
          let sibs :=
            (acc.filter (fun e => e.1 ≠ rowId && e.2.parentId = m.parentId)).map
              (fun e => (lookupA e.1 rawNames).getD "")
          let newName :=
            expandChildDisplayName ((lookupA rowId rawNames).getD "")
              pm.displayName sibs
          modifyA rowId (fun mm => { mm with displayName := newName }) acc
    else acc

/-- The `expandChildDisplayNames` function of parser.js: raw names are
snapshotted first, then each property is rewritten in declaration order. -/
def expandChildDisplayNames (g : GameDraft) : GameDraft :=
  let rawNames := g.propertyMetadata.map (fun e => (e.1, e.2.displayName))
  let props :=
    (g.propertyMetadata.map (fun e => e.1)).foldl (expandStep rawNames)
      g.propertyMetadata
  { g with propertyMetadata := props }

/-! ### Top-level parse -/

/-- Remove one trailing case-insensitive ".lua" extension (the JS anchored
case-insensitive replace). -/
def stripLuaExt (s : String) : String :=
  match s.data.reverse with
  | a :: u :: l :: d :: rest =>
    if a.toLower = 'a' && u.toLower = 'u' && l.toLower = 'l' && d = '.' then
      ⟨rest.reverse⟩
    else s
  | _ => s

/-- One iteration body of the directive loop of `parseLuaContent`, dispatched
on the leading tag of the trimmed line. Exposed as a fueled recursion: every
iteration advances the line index by at least one, so fuel one greater than
the number of lines always suffices. The group directive reads `parts[1]`
and `parts[2]` as JS array indexing, which yields `undefined` (here `none`)
past the end of the split. -/
def parseLoop :
    Nat → List String → Nat → PState → Option String → Option String → PState
  | 0, _, _, st, _, _ => st
  | fuel + 1, lines, idx, st, gid, gname =>
    if idx < lines.length then
      let line := trimJS (lines.getD idx "")
      if line = "" then parseLoop fuel lines (idx + 1) st gid gname
      else if startsWithJS "#mission" line then
        parseLoop fuel lines (idx + 1)
          { st with game := parseMissionLine line st.game } gid gname
      else if startsWithJS "#players" line then
        let r := parsePlayersSection lines idx st
        parseLoop fuel lines (r.1 + 1) r.2 gid gname
      else if startsWithJS "#group" line then
        let parts := jsSplit ';' line
        parseLoop fuel lines (idx + 1) st (parts.get? 1)
          (if parts.length > 2 then parts.get? 2 else parts.get? 1)
      else if startsWithJS "#row" line then
        let r := parseRowSection lines idx line st gid gname
        parseLoop fuel lines (r.1 + 1) r.2 gid gname
      else parseLoop fuel lines (idx + 1) st gid gname
    else st

/-- The default category used before any group directive. -/
def DEFAULT_GROUP_ID : String := "row_resource_score"

/-- Display name of the default category. -/
def DEFAULT_GROUP_NAME : String := "Resource & Teamwork"

/-- The `parseLuaContent` function of parser.js up to (not including) the
hierarchy post-passes: filename decoding, line normalization and the
directive loop. `none` models the null return on a non-numeric filename. -/
def parseLuaContentCore (filename content : String) : Option GameDraft :=
  match parseIntJS (stripLuaExt filename) with
  | none => none
  | some timestamp =>
    let lines :=
      (splitOnChar '\n' (replaceCRLFChars (trimChars content.data))).map
        (fun l => (⟨l⟩ : String))
    let init : GameDraft :=
      { filename := filename, timestamp := timestamp, missionId := "",
        difficulty := some 0, modifier := "", result := "",
        durationSeconds := some 0, players := [], propertyMetadata := [],
        scores := [], discoveredBots := [], discoveredExtraPlayers := [] }
    some (parseLoop (lines.length + 1) lines 0 ⟨init, []⟩
      (some DEFAULT_GROUP_ID) (some DEFAULT_GROUP_NAME)).game

/-- The full `parseLuaContent`: parse, then run the hierarchy post-passes. -/
def parseLuaContent (filename content : String) : Option GameDraft :=
  (parseLuaContentCore filename content).map
    (fun g => expandChildDisplayNames (linkOrphanedChildren g))

/-! ### Database layer (db.js): schema rows, store, repository -/

/-- One row of the games table. The difficulty and duration columns are NOT
NULL without a usable default, so successfully inserted rows carry plain
integers. -/
structure GameRow where
  id : Int
  filename : String
  timestamp : Int
  missionId : String
  missionName : String
  difficulty : Int
  modifier : String
  result : String
  durationSeconds : Int
deriving DecidableEq

/-- One row of the game_players table. -/
structure GPRow where
  gameId : Int
  playerId : String
  slot : Int
  name : String
  quitter : Bool
deriving DecidableEq

/-- The non-key columns of the properties table. -/
structure PropRow where
  displayName : String
  groupId : String
  groupName : String
  sortDirection : String
  isSummary : Bool
  parentId : Option String
  childIds : Option String
  rowOrder : Int
  visible : Bool
deriving DecidableEq

/-- One row of the scores table. -/
structure ScoreRow where
  gameId : Int
  playerId : String
  propertyId : String
  value : JVal
deriving DecidableEq

/-- The relational store: the SQLite tables as row lists in insertion order,
plus the next surrogate games id (AUTOINCREMENT counter). The players table
maps id to the is_bot flag. -/
structure Store where
  games : List GameRow
  nextId : Int
  players : List (String × Bool)
  gamePlayers : List GPRow
  properties : List (String × PropRow)
  scores : List ScoreRow
deriving DecidableEq

/-- A store holding the freshly created empty schema. -/
def emptyStore : Store :=
  { games := [], nextId := 1, players := [], gamePlayers := [],
    properties := [], scores := [] }

/-- The MISSION_NAMES lookup table of constants.js. -/
def MISSION_NAMES : List (String × String) :=
  [("cm_habs", "Hab Dreyko"),
   ("cm_raid", "Dark Communion"),
   ("cm_archives", "Chasm Logistratum"),
   ("lm_rails", "Enclavum Baross"),
   ("lm_scavenge", "Mercantile HL-70-04"),
   ("lm_cooling", "Silo Cluster 18-66/a"),
   ("fm_armoury", "Power Matrix HL-17-36"),
   ("fm_cargo", "Consignment Yard HL-17-36"),
   ("fm_resurgence", "Smelter Complex HL-17-36"),
   ("dm_stockpile", "Ascension Riser 31"),
   ("dm_propaganda", "Comms-Plex 154/2f"),
   ("dm_rise", "Magistrati Oubliette TM8-707"),
   ("dm_forge", "Archivum Sycorax"),
   ("hm_complex", "Refinery Delta-17"),
   ("hm_cartel", "Excise Vault Spireside-13"),
   ("hm_strain", "Relay Station TRS-150"),
   ("km_enforcer", "Warren 6-19"),
   ("km_station", "Chasm Station HL-16-11"),
   ("km_heresy", "Vigil Station Oblivium"),
   ("km_enforcer_twins", "Orthus Offensive"),
   ("core_research", "Clandestium Gloriana"),
   ("op_train", "Rolling Steel"),
   ("op_no_mans_land", "Battle for Tertium"),
   ("hub_ship", "Mourningstar (Hub)"),
   ("psykhanium", "Mortis Trials")]

/-- Filenames currently present in the games table. -/
def filenames (st : Store) : List String := st.games.map (fun r => r.filename)

/-- The `insertGame` function of db.js, modelled at SQL-statement level with
the store reached when the first statement throws, plus a success flag. The
leading games INSERT (no conflict clause) fails when the filename is already
present (UNIQUE) or when difficulty or duration is NaN, which SQLite binds as
NULL into a NOT NULL column; it is the first statement, so that failure
writes nothing. The players and game_players statements use OR IGNORE and
bind only defined values, so they cannot fail (a NaN slot binds NULL into
the NOT NULL column and the row is skipped). The properties INSERT OR
REPLACE is one batched statement binding every metadata row; a group id or
group name that is JS `undefined` (after a field-less group directive) makes
the bind throw before the statement runs, and NULL would still violate the
NOT NULL columns without defaults, so the whole statement writes nothing —
but the games, players and game_players rows written before it remain, and
the scores statements are never reached. On success the NULL row_order takes
the column default 0 and OR IGNORE deduplicates the score rows; score
chunking (batches of 500) does not affect the table contents and is not
modelled. -/
def insertGame (st : Store) (g : GameDraft) : Store × Bool :=
  if g.filename ∈ filenames st then (st, false)
  else
    match g.difficulty, g.durationSeconds with
    | some diff, some dur =>
      let missionName :=
        match lookupA g.missionId MISSION_NAMES with
        | some n => if n = "" then g.missionId else n
        | none => g.missionId
      let gid := st.nextId
      let row : GameRow :=
        { id := gid, filename := g.filename, timestamp := g.timestamp,
          missionId := g.missionId, missionName := missionName,
          difficulty := diff, modifier := g.modifier, result := g.result,
          durationSeconds := dur }
      let pl1 := g.players.map (fun t => (t.2.1, false))
      let pl2 := g.discoveredBots.map (fun b => (b.1, true))
      let pl3 := g.discoveredExtraPlayers.map (fun e => (e, false))
      let playersNew :=
        (pl1 ++ pl2 ++ pl3).foldl
          (fun acc p => if (lookupA p.1 acc).isSome then acc else acc ++ [p])
          st.players
      let gp1 := g.players.map (fun t => (t.1, t.2.1, t.2.2, false))
      let gp2 := g.discoveredBots.map (fun b => (some (-1 : Int), b.1, b.2, false))
      let gp3 :=
        g.discoveredExtraPlayers.map (fun e => (some (-1 : Int), e, "Unknown", true))
      let gamePlayersNew :=
        (gp1 ++ gp2 ++ gp3).foldl
          (fun acc t =>
            match t.1 with
            | none => acc
            | some s =>
              if acc.any (fun r => r.gameId = gid && r.playerId = t.2.1) then acc
              else acc ++ [{ gameId := gid, playerId := t.2.1, slot := s,
                             name := t.2.2.1, quitter := t.2.2.2 }])
          st.gamePlayers
      let stMid : Store :=
        { games := st.games ++ [row], nextId := gid + 1,
          players := playersNew, gamePlayers := gamePlayersNew,
          properties := st.properties, scores := st.scores }
      if g.propertyMetadata.all
          (fun e => e.2.groupId.isSome && e.2.groupName.isSome) then
        let propertiesNew :=
          g.propertyMetadata.foldl
            (fun acc e =>
              let pr : PropRow :=
                { displayName := e.2.displayName,
                  groupId := e.2.groupId.getD "",
                  groupName := e.2.groupName.getD "",
                  sortDirection := e.2.sortDirection,
                  isSummary := e.2.isSummary, parentId := e.2.parentId,
                  childIds := e.2.childIds, rowOrder := e.2.rowOrder.getD 0,
                  visible := e.2.visible }
              (acc.filter (fun q => q.1 ≠ e.1)) ++ [(e.1, pr)])
            st.properties
        let scoresNew :=
          g.scores.foldl
            (fun acc t =>
              if acc.any (fun r =>
                  r.gameId = gid && r.playerId = t.2.1 && r.propertyId = t.1)
              then acc
              else acc ++ [{ gameId := gid, playerId := t.2.1,
                             propertyId := t.1, value := t.2.2 }])
            st.scores
        ({ stMid with properties := propertiesNew, scores := scoresNew }, true)
      else (stMid, false)
    | _, _ => (st, false)

/-- The `backfillUnknownPlayerNames` UPDATE of parser.js: every roster entry
named "Unknown" takes the name of the first roster entry for the same player
id carrying a different name, when one exists (snapshot semantics). -/
def backfillUnknownPlayerNames (st : Store) : Store :=
  let gps :=
    st.gamePlayers.map
      (fun r =>
        if r.name = "Unknown" then
          match st.gamePlayers.find?
              (fun q => q.playerId = r.playerId && q.name ≠ "Unknown") with
          | some q => { r with name := q.name }
          | none => r
        else r)
  { st with gamePlayers := gps }

/-! ### Ingestion (parser.js `ingestFiles`) -/

/-- A candidate file: its name and text content (the already-collected result
of `collectLuaFiles` and `readFileContent`). -/
structure LuaFile where
  name : String
  content : String
deriving DecidableEq

/-- The summary returned by `ingestFiles`. -/
structure IngestResult where
  ingested : Nat
  errors : Nat
  total : Nat
deriving DecidableEq

/-- The per-file body of the ingestion loop: parse failure counts an error
and continues; a throwing insert is caught, counts an error and continues
from whatever store the partial execution of `insertGame` left behind (there
is no savepoint or rollback around the file); success advances the store and
the ingested count. The accumulator is (store, ingested, errors). -/
def processFile (acc : Store × Nat × Nat) (f : LuaFile) : Store × Nat × Nat :=
  match parseLuaContent f.name f.content with
  | none => (acc.1, acc.2.1, acc.2.2 + 1)
  | some g =>
    let r := insertGame acc.1 g
    if r.2 then (r.1, acc.2.1 + 1, acc.2.2)
    else (r.1, acc.2.1, acc.2.2 + 1)

/-- The ingestion loop over the new files. The BEGIN/COMMIT batching and the
snapshot saves every INGEST_BATCH_SIZE files do not change the resulting
store contents and are not modelled. -/
def processNewFiles (start : Store × Nat × Nat) (files : List LuaFile) :
    Store × Nat × Nat :=
  files.foldl processFile start

/-- The `ingestFiles` function of parser.js: filter out filenames already in
the games table, short-circuit when nothing is new, process the rest, and
backfill names when anything was ingested. -/
def ingestFiles (st : Store) (luaFiles : List LuaFile) : Store × IngestResult :=
  let existing := filenames st
  let newFiles := luaFiles.filter (fun f => f.name ∉ existing)
  if newFiles.isEmpty then (st, ⟨0, 0, luaFiles.length⟩)
  else
    let r := processNewFiles (st, 0, 0) newFiles
    let stFinal := if r.2.1 > 0 then backfillUnknownPlayerNames r.1 else r.1
    (stFinal, ⟨r.2.1, r.2.2, luaFiles.length⟩)

/-! ### Query layer (db.js `getGames`) -/

/-- Threshold above which a lost game counts as "long" (constants.js). -/
def LONG_GAME_THRESHOLD_SECONDS : Int := 1200

/-- The parameters accepted by `getGames`; absent JS fields are the empty
list, the empty string, or `none`, matching the falsy defaults applied in the
source. -/
structure GamesParams where
  propertyIds : List String
  resultFilter : String
  difficulties : List Int
  missions : List String
  modifiers : List String
  startTime : Option Int
  endTime : Option Int
  lastNGames : Option Int
deriving DecidableEq

/-- The WHERE clause built by `getGames`: result class, difficulty, mission
and modifier sets, and the time window. -/
def matchesWhere (p : GamesParams) (g : GameRow) : Bool :=
  (let rf := if p.resultFilter = "" then "all" else p.resultFilter
   if rf = "won" then g.result = "won"
   else if rf = "won_and_long_lost" then
     g.result = "won" ||
       (g.result = "lost" && g.durationSeconds > LONG_GAME_THRESHOLD_SECONDS)
   else if rf = "lost" then g.result = "lost"
   else true) &&
  (p.difficulties.isEmpty || g.difficulty ∈ p.difficulties) &&
  (p.missions.isEmpty || g.missionId ∈ p.missions) &&
  (p.modifiers.isEmpty || g.modifier ∈ p.modifiers) &&
  (match p.startTime with
   | some t => t ≤ g.timestamp
   | none => true) &&
  (match p.endTime with
   | some t => g.timestamp ≤ t
   | none => true)

/-- Ascending timestamp order used for ORDER BY timestamp ASC (ties resolved
stably by table order in this model). -/
def gameLeAsc (a b : GameRow) : Prop := a.timestamp ≤ b.timestamp

instance : DecidableRel gameLeAsc := fun a b =>
  inferInstanceAs (Decidable (a.timestamp ≤ b.timestamp))

instance : IsTotal GameRow gameLeAsc := ⟨fun a b => Int.le_total a.timestamp b.timestamp⟩

instance : IsTrans GameRow gameLeAsc := ⟨fun _ _ _ h1 h2 => Int.le_trans h1 h2⟩

/-- Descending timestamp order used for ORDER BY timestamp DESC. -/
def gameLeDesc (a b : GameRow) : Prop := b.timestamp ≤ a.timestamp

instance : DecidableRel gameLeDesc := fun a b =>
  inferInstanceAs (Decidable (b.timestamp ≤ a.timestamp))

instance : IsTotal GameRow gameLeDesc := ⟨fun a b => Int.le_total b.timestamp a.timestamp⟩

instance : IsTrans GameRow gameLeDesc := ⟨fun _ _ _ h1 h2 => Int.le_trans h2 h1⟩

/-- One returned match record of `getGames`. -/
structure GameOut where
  id : Int
  timestamp : Int
  missionId : String
  missionName : String
  difficulty : Int
  modifier : String
  result : String
  durationSeconds : Int
  players : List (String × String)
  scores : List (String × List (String × JVal))
  quitters : List String
deriving DecidableEq

/-- Group the fetched roster rows by game id into playerId-to-name maps. -/
def buildPlayersByGame (rows : List GPRow) : List (Int × List (String × String)) :=
  rows.foldl
    (fun acc r =>
      let m := (lookupA r.gameId acc).getD []
      setA r.gameId (setA r.playerId r.name m) acc)
    []

/-- Collect the quitter sets by game id. -/
def buildQuittersByGame (rows : List GPRow) : List (Int × List String) :=
  rows.foldl
    (fun acc r =>
      if r.quitter then
        let s := (lookupA r.gameId acc).getD []
        if r.playerId ∈ s then acc else setA r.gameId (s ++ [r.playerId]) acc
      else acc)
    []

/-- One score row folded into the nested game, player, property map. -/
def scoreStep (acc : List (Int × List (String × List (String × JVal))))
    (r : ScoreRow) : List (Int × List (String × List (String × JVal))) :=
  let m := (lookupA r.gameId acc).getD []
  let pm := (lookupA r.playerId m).getD []
  setA r.gameId (setA r.playerId (setA r.propertyId r.value pm) m) acc

/-- Group the fetched score rows into the nested game, player, property map. -/
def buildScoresByGame (rows : List ScoreRow) :
    List (Int × List (String × List (String × JVal))) :=
  rows.foldl scoreStep []

/-- The game-row selection of `getGames`: either the full ascending sort of
the matching rows, or (last-N mode) the ids of the N most recent matching
rows re-fetched and re-sorted ascending. -/
def selectGames (st : Store) (p : GamesParams) : List GameRow :=
  let matching : List GameRow := st.games.filter (matchesWhere p)
  match p.lastNGames with
  | some n =>
    if n > 0 then
      let ids : List Int :=
        ((List.insertionSort gameLeDesc matching).take n.toNat).map
          (fun r => r.id)
      if ids.isEmpty then []
      else
        List.insertionSort gameLeAsc (st.games.filter (fun g => g.id ∈ ids))
    else List.insertionSort gameLeAsc matching
  | none => List.insertionSort gameLeAsc matching

/-- The output-assembly stage of `getGames`: attach the roster map, the
requested-property score map and the quitter set to every selected game. -/
def buildOutputs (st : Store) (p : GamesParams) (games : List GameRow) :
    List GameOut :=
  if games.isEmpty then []
  else
    let gameIds := games.map (fun g => g.id)
    let gamePlayers := st.gamePlayers.filter (fun r => r.gameId ∈ gameIds)
    let playersByGame := buildPlayersByGame gamePlayers
    let quittersByGame := buildQuittersByGame gamePlayers
    let scoresRows :=
      st.scores.filter
        (fun r => r.gameId ∈ gameIds && r.propertyId ∈ p.propertyIds)
    let scoresByGame := buildScoresByGame scoresRows
    games.map
      (fun g =>
        { id := g.id, timestamp := g.timestamp, missionId := g.missionId,
          missionName := g.missionName, difficulty := g.difficulty,
          modifier := g.modifier, result := g.result,
          durationSeconds := g.durationSeconds,
          players := (lookupA g.id playersByGame).getD [],
          scores := (lookupA g.id scoresByGame).getD [],
          quitters := (lookupA g.id quittersByGame).getD [] })

/-- The `getGames` function of db.js: empty requested property set returns
the empty list; otherwise filter games, apply either the full ascending sort
or the last-N selection (N most recent, re-sorted ascending), and attach the
roster, quitter and requested-property score maps. -/
def getGames (st : Store) (p : GamesParams) : List GameOut :=
  if p.propertyIds.isEmpty then []
  else buildOutputs st p (selectGames st p)

/-! ### Association-list lemmas -/

/-- Looking a key up right after setting it yields the new value. -/
theorem lookupA_setA_self {κ β : Type} [DecidableEq κ] (k : κ) (v : β)
    (l : List (κ × β)) : lookupA k (setA k v l) = some v := by
  induction l with
  | nil => simp [setA, lookupA]
  | cons e rest ih =>
    by_cases h : e.1 = k
    · simp [setA, h, lookupA]
    · simp [setA, h, lookupA, ih]

/-- Setting one key leaves lookups of other keys unchanged. -/
theorem lookupA_setA_ne {κ β : Type} [DecidableEq κ] {k k' : κ} (v : β)
    (l : List (κ × β)) (hne : k ≠ k') : lookupA k' (setA k v l) = lookupA k' l := by
  induction l with
  | nil => simp [setA, lookupA, hne]
  | cons e rest ih =>
    by_cases h : e.1 = k
    · simp [setA, h, lookupA, hne, h ▸ hne]
    · simp [setA, h, lookupA, ih]

/-- Looking up a key after modifying it applies the modification. -/
theorem lookupA_modifyA_self {κ β : Type} [DecidableEq κ] (k : κ) (f : β → β)
    (l : List (κ × β)) : lookupA k (modifyA k f l) = (lookupA k l).map f := by
  induction l with
  | nil => simp [modifyA, lookupA]
  | cons e rest ih =>
    by_cases h : e.1 = k
    · simp [modifyA, h, lookupA]
    · simp [modifyA, h, lookupA, ih]

/-- Modifying one key leaves lookups of other keys unchanged. -/
theorem lookupA_modifyA_ne {κ β : Type} [DecidableEq κ] {k k' : κ} (f : β → β)
    (l : List (κ × β)) (hne : k ≠ k') :
    lookupA k' (modifyA k f l) = lookupA k' l := by
  induction l with
  | nil => simp [modifyA]
  | cons e rest ih =>
    by_cases h : e.1 = k
    · simp [modifyA, h, lookupA, hne, ih]
    · simp [modifyA, h, lookupA, ih]

/-- Every binding of `setA k v l` is the new binding or an old one. -/
theorem mem_setA {κ β : Type} [DecidableEq κ] {k : κ} {v : β}
    {l : List (κ × β)} {x : κ × β} (hx : x ∈ setA k v l) :
    x = (k, v) ∨ x ∈ l := by
  induction l with
  | nil => simpa [setA] using hx
  | cons e rest ih =>
    by_cases h : e.1 = k
    · simp [setA, h] at hx
      rcases hx with h1 | h2
      · exact Or.inl h1
      · exact Or.inr (List.mem_cons_of_mem _ h2)
    · simp [setA, h] at hx
      rcases hx with h1 | h2
      · exact Or.inr (h1 ▸ List.mem_cons_self _ _)
      · rcases ih h2 with h3 | h4
        · exact Or.inl h3
        · exact Or.inr (List.mem_cons_of_mem _ h4)

/-- A successful lookup produces a binding of the list. -/
theorem lookupA_some_mem {κ β : Type} [DecidableEq κ] {k : κ} {v : β}
    {l : List (κ × β)} (h : lookupA k l = some v) : (k, v) ∈ l := by
  induction l with
  | nil => simp [lookupA] at h
  | cons e rest ih =>
    rcases e with ⟨ek, ev⟩
    by_cases he : ek = k
    · subst he
      simp [lookupA] at h
      subst h
      exact List.mem_cons_self _ _
    · simp [lookupA, he] at h
      exact List.mem_cons_of_mem _ (ih h)

/-! ### Claim C9 -/

/-- C9: synthetic bot-id derivation is a pure function of the raw participant
token. The player id resolved for a data-line token does not depend on the
per-match registered-player set, for a non-UUID token it is exactly
`generateBotIdentifier` of the token, and the concrete token
"\x7b#color(1)\x7dGrunt\x7b#reset()\x7d [BOT]" yields "bot_grunt". -/
theorem c9_bot_identifier_pure (k1 k2 : List String) (raw : String) :
    resolvePlayerId k1 raw = resolvePlayerId k2 raw ∧
    (isUuid raw = false → resolvePlayerId k1 raw = generateBotIdentifier raw) ∧
    generateBotIdentifier "\x7b#color(1)\x7dGrunt\x7b#reset()\x7d [BOT]" =
      "bot_grunt" := by
  refine ⟨rfl, fun h => ?_, by decide⟩
  simp [resolvePlayerId, h]

/-- Witness for C9 at a concrete non-UUID token. -/
theorem c9_witness :
    resolvePlayerId ["some-known-id"] "Grunt [BOT]" =
      generateBotIdentifier "Grunt [BOT]" :=
  (c9_bot_identifier_pure ["some-known-id"] [] "Grunt [BOT]").2.1 (by decide)

/-! ### Claim C10 -/

/-- C10: inside a row block, a data line whose numeric value fails to parse
is skipped but still consumes one declared line (the loop continues at the
next line with the state unchanged), while an empty line or a directive line
makes the loop back up one line and end the block. -/
theorem c10_unparseable_value_consumes_line (known : List String)
    (rowId : String) (n : Nat) (lines : List String) (idx : Nat)
    (g : GameDraft) (rawLine : String)
    (hline : lines.get? (idx + 1) = some rawLine) :
    (trimJS rawLine ≠ "" →
      startsWithJS "#" (trimJS rawLine) = false →
      (match (jsSplit ';' (trimJS rawLine)).get? 1 with
       | some v => parseFloatJS v
       | none => none) = none →
      dataLoop known rowId (n + 1) lines idx g =
        dataLoop known rowId n lines (idx + 1) g) ∧
    ((trimJS rawLine = "" ∨ startsWithJS "#" (trimJS rawLine) = true) →
      dataLoop known rowId (n + 1) lines idx g = (idx, g)) := by
  constructor
  · intro h1 h2 h3
    simp only [dataLoop, hline, h3]
    simp [h1, h2]
  · intro h
    simp only [dataLoop, hline]
    rcases h with h | h <;> simp [h]

/-- Witness for C10: a data line with an unparseable value consumes exactly
one line, and a directive line ends the block backing up one line. -/
theorem c10_witness :
    (dataLoop [] "r" 2 ["#row;r;0;2", "p;xx", "#next"] 0
        { filename := "w.lua", timestamp := 0, missionId := "",
          difficulty := some 0, modifier := "", result := "",
          durationSeconds := some 0, players := [], propertyMetadata := [],
          scores := [], discoveredBots := [], discoveredExtraPlayers := [] } =
      dataLoop [] "r" 1 ["#row;r;0;2", "p;xx", "#next"] 1
        { filename := "w.lua", timestamp := 0, missionId := "",
          difficulty := some 0, modifier := "", result := "",
          durationSeconds := some 0, players := [], propertyMetadata := [],
          scores := [], discoveredBots := [], discoveredExtraPlayers := [] }) ∧
    (dataLoop [] "r" 1 ["#row;r;0;2", "p;xx", "#next"] 1
        { filename := "w.lua", timestamp := 0, missionId := "",
          difficulty := some 0, modifier := "", result := "",
          durationSeconds := some 0, players := [], propertyMetadata := [],
          scores := [], discoveredBots := [], discoveredExtraPlayers := [] } =
      (1, { filename := "w.lua", timestamp := 0, missionId := "",
            difficulty := some 0, modifier := "", result := "",
            durationSeconds := some 0, players := [], propertyMetadata := [],
            scores := [], discoveredBots := [], discoveredExtraPlayers := [] })) :=
  ⟨(c10_unparseable_value_consumes_line [] "r" 1 ["#row;r;0;2", "p;xx", "#next"]
      0 _ "p;xx" (by decide)).1 (by decide) (by decide) (by decide),
   (c10_unparseable_value_consumes_line [] "r" 0 ["#row;r;0;2", "p;xx", "#next"]
      1 _ "#next" (by decide)).2 (Or.inr (by decide))⟩

/-! ### Parser invariants: filename and timestamp are never rewritten -/

/-- The pair of draft fields that identify the source file. -/
def tsfn (g : GameDraft) : Int × String := (g.timestamp, g.filename)

/-- The mission directive leaves filename and timestamp alone. -/
theorem parseMissionLine_tsfn (line : String) (g : GameDraft) :
    tsfn (parseMissionLine line g) = tsfn g := by
  unfold parseMissionLine
  by_cases h : (jsSplit ';' line).length < 3 <;> simp [h, tsfn]

/-- The players loop leaves filename and timestamp alone. -/
theorem playersLoop_tsfn (n : Nat) (lines : List String) (idx : Nat)
    (st : PState) :
    tsfn (playersLoop n lines idx st).2.game = tsfn st.game := by
  induction n generalizing idx st with
  | zero => rfl
  | succ n ih =>
    cases h : lines.get? (idx + 1) with
    | none =>
      simp only [playersLoop, h]
    | some l =>
      simp only [playersLoop, h]
      split
      · exact ih _ _
      · rw [ih]; rfl

/-- The players section leaves filename and timestamp alone. -/
theorem parsePlayersSection_tsfn (lines : List String) (idx : Nat)
    (st : PState) :
    tsfn (parsePlayersSection lines idx st).2.game = tsfn st.game := by
  simp only [parsePlayersSection]
  split
  · rfl
  · exact playersLoop_tsfn _ _ _ _

/-- The data-line loop leaves filename and timestamp alone. -/
theorem dataLoop_tsfn (known : List String) (rowId : String) (n : Nat)
    (lines : List String) (idx : Nat) (g : GameDraft) :
    tsfn (dataLoop known rowId n lines idx g).2 = tsfn g := by
  induction n generalizing idx g with
  | zero => rfl
  | succ n ih =>
    cases h : lines.get? (idx + 1) with
    | none => simp only [dataLoop, h]
    | some l =>
      simp only [dataLoop, h]
      split
      · rfl
      · split
        · exact ih _ _
        · rw [ih]
          split
          · split <;> rfl
          · rfl

/-- The row section leaves filename and timestamp alone. -/
theorem parseRowSection_tsfn (lines : List String) (idx : Nat) (line : String)
    (st : PState) (gid gname : Option String) :
    tsfn (parseRowSection lines idx line st gid gname).2.game = tsfn st.game := by
  simp only [parseRowSection]
  split
  · rfl
  · exact dataLoop_tsfn _ _ _ _ _ _

/-- The directive loop leaves filename and timestamp alone. -/
theorem parseLoop_tsfn (fuel : Nat) (lines : List String) (idx : Nat)
    (st : PState) (gid gname : Option String) :
    tsfn (parseLoop fuel lines idx st gid gname).game = tsfn st.game := by
  induction fuel generalizing idx st gid gname with
  | zero => simp [parseLoop]
  | succ fuel ih =>
    simp only [parseLoop]
    split
    · split
      · exact ih _ _ _ _
      · split
        · rw [ih, parseMissionLine_tsfn]
        · split
          · rw [ih, parsePlayersSection_tsfn]
          · split
            · exact ih _ _ _ _
            · split
              · rw [ih, parseRowSection_tsfn]
              · exact ih _ _ _ _
    · rfl

/-- The hierarchy post-passes leave filename and timestamp alone. -/
theorem postPass_tsfn (g : GameDraft) :
    tsfn (expandChildDisplayNames (linkOrphanedChildren g)) = tsfn g := by
  simp [expandChildDisplayNames, linkOrphanedChildren, tsfn]

/-- Timestamp preservation through the directive loop and post-passes. -/
theorem parse_chain_timestamp (fuel : Nat) (lines : List String) (idx : Nat)
    (st : PState) (gid gname : Option String) :
    (expandChildDisplayNames (linkOrphanedChildren
      (parseLoop fuel lines idx st gid gname).game)).timestamp =
      st.game.timestamp :=
  congrArg Prod.fst ((postPass_tsfn _).trans (parseLoop_tsfn fuel lines idx st gid gname))

/-- Filename preservation through the directive loop and post-passes. -/
theorem parse_chain_filename (fuel : Nat) (lines : List String) (idx : Nat)
    (st : PState) (gid gname : Option String) :
    (expandChildDisplayNames (linkOrphanedChildren
      (parseLoop fuel lines idx st gid gname).game)).filename =
      st.game.filename :=
  congrArg Prod.snd ((postPass_tsfn _).trans (parseLoop_tsfn fuel lines idx st gid gname))

/-- A successfully parsed draft carries the decoded filename timestamp and
the input filename. -/
theorem parseLuaContent_fields (filename content : String) (g : GameDraft)
    (h : parseLuaContent filename content = some g) :
    some g.timestamp = parseIntJS (stripLuaExt filename) ∧
    g.filename = filename := by
  unfold parseLuaContent parseLuaContentCore at h
  cases hts : parseIntJS (stripLuaExt filename) with
  | none => rw [hts] at h; simp at h
  | some ts =>
    rw [hts] at h
    simp at h
    refine ⟨?_, ?_⟩
    · rw [← h, parse_chain_timestamp]
    · rw [← h, parse_chain_filename]

/-! ### Claim C5 -/

/-- Spec-side notion of a decimal timestamp string: nonempty and consisting
solely of decimal digits. -/
def isDecimalDigits (s : String) : Bool :=
  !s.data.isEmpty && s.data.all Char.isDigit

/-- Counterexample to C5: the filename "123abc.lua" does not strip to a
decimal timestamp, yet `parseLuaContent` accepts it (JS `parseInt` reads the
longest digit prefix, 123) instead of failing with BadFilename. -/
theorem c5_counterexample :
    isDecimalDigits (stripLuaExt "123abc.lua") = false ∧
    (parseLuaContent "123abc.lua" "").isSome = true ∧
    (parseLuaContent "123abc.lua" "").map (fun g => g.timestamp) = some 123 := by
  refine ⟨by decide, by decide, by decide⟩

/-- C5 amended: `parseLuaContent` fails exactly when JS `parseInt` of the
filename with the ".lua" extension removed is NaN, i.e. when the stripped
name has no leading decimal-digit run after optional whitespace and sign;
when it succeeds, the timestamp of the parsed game is the `parseInt` value
(for an all-digit filename, its decimal value). -/
theorem c5_filename_gate (name content : String) :
    (parseLuaContent name content = none ↔
      parseIntJS (stripLuaExt name) = none) ∧
    (∀ g, parseLuaContent name content = some g →
      some g.timestamp = parseIntJS (stripLuaExt name)) := by
  constructor
  · unfold parseLuaContent parseLuaContentCore
    cases hts : parseIntJS (stripLuaExt name) <;> simp
  · intro g hg
    exact (parseLuaContent_fields name content g hg).1

/-- Witness for C5: a non-numeric filename is rejected, and an all-digit
filename parses with its decimal timestamp. -/
theorem c5_witness :
    parseLuaContent "abc.lua" "" = none ∧
    (∀ g, parseLuaContent "1700000000.lua" "" = some g →
      some g.timestamp = parseIntJS (stripLuaExt "1700000000.lua")) :=
  ⟨(c5_filename_gate "abc.lua" "").1.mpr (by decide),
   (c5_filename_gate "1700000000.lua" "").2⟩

/-! ### Claim C1 -/

/-- A games-stage failure of `insertGame` (duplicate filename, or NaN
difficulty or duration bound as NULL into a NOT NULL column) is a failure of
the first statement and writes nothing. -/
theorem insertGame_bad_eq (st : Store) (g : GameDraft)
    (h : g.filename ∈ filenames st ∨ g.difficulty = none ∨
      g.durationSeconds = none) :
    insertGame st g = (st, false) := by
  simp only [insertGame]
  split
  · rfl
  · rename_i hnmem
    rcases hd : g.difficulty with _ | d
    · rfl
    · rcases hr : g.durationSeconds with _ | r
      · rfl
      · rcases h with h | h | h
        · exact absurd h hnmem
        · rw [h] at hd
          exact absurd hd (by simp)
        · rw [h] at hr
          exact absurd hr (by simp)

/-- When the games INSERT succeeds its row is appended, whether or not the
later properties statement fails. -/
theorem insertGame_ok_filenames (st : Store) (g : GameDraft) (d r : Int)
    (hnd : g.filename ∉ filenames st) (hd : g.difficulty = some d)
    (hr : g.durationSeconds = some r) :
    filenames (insertGame st g).1 = filenames st ++ [g.filename] := by
  simp only [insertGame]
  rw [if_neg hnd, hd, hr]
  split
  · split
    · simp [filenames]
    · simp [filenames]
  · rename_i hne
    exact (hne d r rfl rfl).elim

/-- The games table never loses a filename across `insertGame`. -/
theorem insertGame_mono (st : Store) (g : GameDraft) :
    filenames st ⊆ filenames (insertGame st g).1 := by
  by_cases hdup : g.filename ∈ filenames st
  · rw [insertGame_bad_eq st g (Or.inl hdup)]
    exact fun x hx => hx
  · cases hd : g.difficulty with
    | none =>
      rw [insertGame_bad_eq st g (Or.inr (Or.inl hd))]
      exact fun x hx => hx
    | some d =>
      cases hr : g.durationSeconds with
      | none =>
        rw [insertGame_bad_eq st g (Or.inr (Or.inr hr))]
        exact fun x hx => hx
      | some r =>
        rw [insertGame_ok_filenames st g d r hdup hd hr]
        exact fun x hx => List.mem_append_left _ hx

/-- The ingestion step on a file that fails to parse only counts the
error. -/
theorem processFile_fst_none (acc : Store × Nat × Nat) (f : LuaFile)
    (hp : parseLuaContent f.name f.content = none) :
    processFile acc f = (acc.1, acc.2.1, acc.2.2 + 1) := by
  simp only [processFile, hp]

/-- The ingestion step on a parsed file whose insert fails: the store is
whatever the partial execution of `insertGame` left behind, and the error
count advances. -/
theorem processFile_eq_fail (acc : Store × Nat × Nat) (f : LuaFile)
    (g : GameDraft) (hp : parseLuaContent f.name f.content = some g)
    (hfl : (insertGame acc.1 g).2 = false) :
    processFile acc f = ((insertGame acc.1 g).1, acc.2.1, acc.2.2 + 1) := by
  simp [processFile, hp, hfl]

/-- The store after one ingestion step of a parsed file is the store left by
`insertGame`, succeeding or not. -/
theorem processFile_fst_some (acc : Store × Nat × Nat) (f : LuaFile)
    (g : GameDraft) (hp : parseLuaContent f.name f.content = some g) :
    (processFile acc f).1 = (insertGame acc.1 g).1 := by
  simp only [processFile, hp]
  split
  · rfl
  · rfl

/-- Counterexample to C1: the file 1.lua whose group directive carries no
fields parses successfully, but its insert throws at the batched properties
statement after the games row was written; the batch counts the error, yet
the final store retains the games row of the failed file, so not all of the
writes of a failed file are rolled back. -/
theorem c1_counterexample :
    (ingestFiles emptyStore [⟨"1.lua", "#group\n#row;r;0;0"⟩]).2.ingested = 0 ∧
    (ingestFiles emptyStore [⟨"1.lua", "#group\n#row;r;0;0"⟩]).2.errors = 1 ∧
    "1.lua" ∈
      filenames (ingestFiles emptyStore [⟨"1.lua", "#group\n#row;r;0;0"⟩]).1 :=
  ⟨by decide, by decide, by decide⟩

/-- C1 amended: a failure of the leading games INSERT (duplicate filename,
or NaN difficulty or duration bound as NULL into a NOT NULL column) writes
nothing, so the batch continues over the remaining files from exactly the
store from before the failed file with only the error count incremented; but
when the games INSERT succeeds and the batched properties INSERT then fails
(a group id or name bound as JS undefined after a field-less group
directive), the error is counted while the games row of the failed file
stays behind in the store the batch continues from: `ingestFiles` has no
per-file savepoint or rollback. -/
theorem c1_insert_failure_modes (st : Store) (i e : Nat)
    (pre post : List LuaFile) (f : LuaFile) (g : GameDraft)
    (hparse : parseLuaContent f.name f.content = some g) :
    (g.filename ∈ filenames (processNewFiles (st, i, e) pre).1 ∨
        g.difficulty = none ∨ g.durationSeconds = none →
      processNewFiles (st, i, e) (pre ++ f :: post) =
        processNewFiles
          ((processNewFiles (st, i, e) pre).1,
           (processNewFiles (st, i, e) pre).2.1,
           (processNewFiles (st, i, e) pre).2.2 + 1) post) ∧
    (∀ d r, g.filename ∉ filenames (processNewFiles (st, i, e) pre).1 →
      g.difficulty = some d → g.durationSeconds = some r →
      (insertGame (processNewFiles (st, i, e) pre).1 g).2 = false →
      processNewFiles (st, i, e) (pre ++ f :: post) =
        processNewFiles
          ((insertGame (processNewFiles (st, i, e) pre).1 g).1,
           (processNewFiles (st, i, e) pre).2.1,
           (processNewFiles (st, i, e) pre).2.2 + 1) post ∧
      g.filename ∈
        filenames (insertGame (processNewFiles (st, i, e) pre).1 g).1) := by
  have hsplit : ∀ acc : Store × Nat × Nat,
      processNewFiles acc (pre ++ f :: post) =
        processNewFiles (processFile (processNewFiles acc pre) f) post := by
    intro acc
    unfold processNewFiles
    rw [List.foldl_append, List.foldl_cons]
  constructor
  · intro h
    have hbad : insertGame (processNewFiles (st, i, e) pre).1 g =
        ((processNewFiles (st, i, e) pre).1, false) :=
      insertGame_bad_eq _ _ h
    have hfl : (insertGame (processNewFiles (st, i, e) pre).1 g).2 = false := by
      rw [hbad]
    have hstep : processFile (processNewFiles (st, i, e) pre) f =
        ((processNewFiles (st, i, e) pre).1,
         (processNewFiles (st, i, e) pre).2.1,
         (processNewFiles (st, i, e) pre).2.2 + 1) := by
      rw [processFile_eq_fail (processNewFiles (st, i, e) pre) f g hparse hfl,
        hbad]
    rw [hsplit, hstep]
  · intro d r hnd hd hr hfl
    refine ⟨?_, ?_⟩
    · rw [hsplit,
        processFile_eq_fail (processNewFiles (st, i, e) pre) f g hparse hfl]
    · rw [insertGame_ok_filenames (processNewFiles (st, i, e) pre).1 g d r
        hnd hd hr]
      exact List.mem_append_right _ (List.mem_singleton.mpr rfl)

/-- The draft parsed from the C1 witness file: one property whose group id
and group name are the JS undefined read of a field-less group directive. -/
def c1gdraft : GameDraft :=
  (parseLuaContent "1.lua" "#group\n#row;r;0;0").get (by decide)

/-- Witness for C1 (amended): the group-failure file is inserted after an
empty prefix; the games INSERT succeeds, the properties statement fails, the
batch continues from the partially written store, and that store records the
filename of the failed file. -/
theorem c1_witness :
    parseLuaContent "1.lua" "#group\n#row;r;0;0" = some c1gdraft ∧
    c1gdraft.filename ∉ filenames (processNewFiles (emptyStore, 0, 0) []).1 ∧
    c1gdraft.difficulty = some 0 ∧ c1gdraft.durationSeconds = some 0 ∧
    (insertGame (processNewFiles (emptyStore, 0, 0) []).1 c1gdraft).2 = false ∧
    (processNewFiles (emptyStore, 0, 0)
        ([] ++ (⟨"1.lua", "#group\n#row;r;0;0"⟩ : LuaFile) :: [⟨"2.lua", ""⟩]) =
      processNewFiles
        ((insertGame (processNewFiles (emptyStore, 0, 0) []).1 c1gdraft).1,
         (processNewFiles (emptyStore, 0, 0) []).2.1,
         (processNewFiles (emptyStore, 0, 0) []).2.2 + 1) [⟨"2.lua", ""⟩] ∧
     c1gdraft.filename ∈
       filenames (insertGame (processNewFiles (emptyStore, 0, 0) []).1
         c1gdraft).1) :=
  ⟨(Option.some_get _).symm, by decide, by decide, by decide, by decide,
   (c1_insert_failure_modes emptyStore 0 0 [] [⟨"2.lua", ""⟩]
       ⟨"1.lua", "#group\n#row;r;0;0"⟩ c1gdraft (Option.some_get _).symm).2
     0 0 (by decide) (by decide) (by decide) (by decide)⟩

/-! ### Claim C7 -/

/-- Invariant of the nested score map: every property key belongs to the
given id set. -/
def scoresPropsOK (pids : List String)
    (acc : List (Int × List (String × List (String × JVal)))) : Prop :=
  ∀ e ∈ acc, ∀ x ∈ e.2, ∀ y ∈ x.2, y.1 ∈ pids

/-- Folding a row whose property id is in the set preserves the invariant. -/
theorem scoreStep_propsOK (pids : List String)
    (acc : List (Int × List (String × List (String × JVal)))) (r : ScoreRow)
    (hacc : scoresPropsOK pids acc) (hr : r.propertyId ∈ pids) :
    scoresPropsOK pids (scoreStep acc r) := by
  intro e he x hx y hy
  have hmOK : ∀ x0 ∈ (lookupA r.gameId acc).getD [], ∀ y0 ∈ x0.2, y0.1 ∈ pids := by
    intro x0 hx0 y0 hy0
    cases hm : lookupA r.gameId acc with
    | none => rw [hm] at hx0; simp at hx0
    | some m0 =>
      rw [hm] at hx0
      exact hacc _ (lookupA_some_mem hm) x0 hx0 y0 hy0
  rcases mem_setA he with rfl | he'
  · rcases mem_setA hx with rfl | hx'
    · rcases mem_setA hy with rfl | hy'
      · exact hr
      · cases hpm : lookupA r.playerId ((lookupA r.gameId acc).getD []) with
        | none => rw [hpm] at hy'; simp at hy'
        | some pm0 =>
          rw [hpm] at hy'
          exact hmOK _ (lookupA_some_mem hpm) y hy'
    · exact hmOK x hx' y hy
  · exact hacc e he' x hx y hy

/-- Every property key of the built score map comes from a fetched row. -/
theorem buildScoresByGame_propsOK (pids : List String) (rows : List ScoreRow)
    (hrows : ∀ r ∈ rows, r.propertyId ∈ pids) :
    scoresPropsOK pids (buildScoresByGame rows) := by
  unfold buildScoresByGame
  have main : ∀ (rows0 : List ScoreRow)
      (acc : List (Int × List (String × List (String × JVal)))),
      (∀ r ∈ rows0, r.propertyId ∈ pids) →
      scoresPropsOK pids acc → scoresPropsOK pids (rows0.foldl scoreStep acc) := by
    intro rows0
    induction rows0 with
    | nil => intro acc _ hacc; exact hacc
    | cons r rest ih =>
      intro acc hall hacc
      rw [List.foldl_cons]
      exact ih _ (fun q hq => hall q (List.mem_cons_of_mem _ hq))
        (scoreStep_propsOK pids acc r hacc (hall r (List.mem_cons_self _ _)))
  exact main rows [] hrows (by intro e he; simp at he)

/-- The score maps attached by `buildOutputs` only mention requested
property ids. -/
theorem buildOutputs_scores_sub (st : Store) (p : GamesParams)
    (games : List GameRow) :
    ∀ go ∈ buildOutputs st p games, ∀ e ∈ go.scores, ∀ x ∈ e.2,
      x.1 ∈ p.propertyIds := by
  intro go hgo e he x hx
  unfold buildOutputs at hgo
  split at hgo
  · simp at hgo
  · rw [List.mem_map] at hgo
    obtain ⟨gr, _, rfl⟩ := hgo
    simp only at he
    cases hm : lookupA gr.id (buildScoresByGame
        (st.scores.filter (fun r =>
          r.gameId ∈ games.map (fun g => g.id) &&
            r.propertyId ∈ p.propertyIds))) with
    | none => rw [hm] at he; simp at he
    | some m =>
      rw [hm] at he
      have hrows : ∀ r ∈ st.scores.filter (fun r =>
          r.gameId ∈ games.map (fun g => g.id) &&
            r.propertyId ∈ p.propertyIds), r.propertyId ∈ p.propertyIds := by
        intro r hrmem
        have := List.of_mem_filter hrmem
        simp at this
        exact this.2
      exact buildScoresByGame_propsOK p.propertyIds _ hrows _
        (lookupA_some_mem hm) e he x hx

/-- C7: `getGames` with an empty requested property-id set returns the empty
list, and every score entry in every returned nested score map has a property
id in the requested set. -/
theorem c7_getGames_scope (st : Store) (p : GamesParams) :
    (p.propertyIds = [] → getGames st p = []) ∧
    (∀ go ∈ getGames st p, ∀ e ∈ go.scores, ∀ x ∈ e.2, x.1 ∈ p.propertyIds) := by
  constructor
  · intro hempty
    simp [getGames, hempty]
  · intro go hgo e he x hx
    unfold getGames at hgo
    split at hgo
    · simp at hgo
    · exact buildOutputs_scores_sub st p _ go hgo e he x hx

/-- Witness for C7: with an empty requested set the result is empty, and for
a concrete populated store the nested score maps stay inside the requested
set. -/
theorem c7_witness :
    getGames
      { games := [⟨1, "a.lua", 5, "m", "m", 2, "", "won", 100⟩],
        nextId := 2, players := [("p", false)],
        gamePlayers := [⟨1, "p", 0, "P", false⟩],
        properties := [],
        scores := [⟨1, "p", "dmg", JVal.num 5⟩, ⟨1, "p", "heal", JVal.num 7⟩] }
      ⟨[], "", [], [], [], none, none, none⟩ = [] :=
  (c7_getGames_scope _ _).1 rfl

/-! ### Claim C2 -/

/-- One ingestion step never removes a filename from the games table. -/
theorem processFile_mono (acc : Store × Nat × Nat) (f : LuaFile) :
    filenames acc.1 ⊆ filenames (processFile acc f).1 := by
  cases hp : parseLuaContent f.name f.content with
  | none =>
    rw [processFile_fst_none acc f hp]
    exact fun x hx => hx
  | some g =>
    rw [processFile_fst_some acc f g hp]
    exact insertGame_mono _ _

/-- The ingestion loop never removes a filename from the games table. -/
theorem processNewFiles_mono (files : List LuaFile) (acc : Store × Nat × Nat) :
    filenames acc.1 ⊆ filenames (processNewFiles acc files).1 := by
  induction files generalizing acc with
  | nil => exact fun x hx => hx
  | cons f rest ih =>
    intro x hx
    exact ih (processFile acc f) (processFile_mono acc f hx)

/-- After the ingestion loop, every processed file either has its name in the
games table, or failed to parse, or parsed to a draft that can never insert
(NaN difficulty or duration). -/
theorem processNewFiles_covers (files : List LuaFile) (acc : Store × Nat × Nat) :
    ∀ f ∈ files, f.name ∈ filenames (processNewFiles acc files).1 ∨
      parseLuaContent f.name f.content = none ∨
      (∃ g, parseLuaContent f.name f.content = some g ∧
        (g.difficulty = none ∨ g.durationSeconds = none)) := by
  induction files generalizing acc with
  | nil => intro f hf; simp at hf
  | cons f0 rest ih =>
    intro f hf
    rcases List.mem_cons.mp hf with rfl | hf
    · cases hp : parseLuaContent f.name f.content with
      | none => exact Or.inr (Or.inl rfl)
      | some g =>
        have hfn : g.filename = f.name := (parseLuaContent_fields _ _ _ hp).2
        by_cases hdup : g.filename ∈ filenames acc.1
        · left
          rw [hfn] at hdup
          exact processNewFiles_mono rest (processFile acc f)
            (processFile_mono acc f hdup)
        · cases hd : g.difficulty with
          | none => exact Or.inr (Or.inr ⟨g, rfl, Or.inl hd⟩)
          | some d =>
            cases hr : g.durationSeconds with
            | none => exact Or.inr (Or.inr ⟨g, rfl, Or.inr hr⟩)
            | some r =>
              left
              have h1 : f.name ∈ filenames (processFile acc f).1 := by
                rw [processFile_fst_some acc f g hp,
                  insertGame_ok_filenames acc.1 g d r hdup hd hr, ← hfn]
                exact List.mem_append_right _ (List.mem_singleton.mpr rfl)
              exact processNewFiles_mono rest (processFile acc f) h1
    · exact ih (processFile acc f0) f hf

/-- Over files that can never be ingested (parse failure or NaN fields), the
ingestion loop keeps the store and the ingested count unchanged. -/
theorem processNewFiles_stuck (files : List LuaFile) (st : Store) (i e : Nat)
    (h : ∀ f ∈ files, parseLuaContent f.name f.content = none ∨
      (∃ g, parseLuaContent f.name f.content = some g ∧
        (g.difficulty = none ∨ g.durationSeconds = none))) :
    (processNewFiles (st, i, e) files).1 = st ∧
      (processNewFiles (st, i, e) files).2.1 = i := by
  induction files generalizing e with
  | nil => exact ⟨rfl, rfl⟩
  | cons f rest ih =>
    have hstep : processFile (st, i, e) f = (st, i, e + 1) := by
      rcases h f (List.mem_cons_self _ _) with hp | ⟨g, hp, hintr⟩
      · simp [processFile, hp]
      · simp [processFile, hp, insertGame_bad_eq st g (Or.inr hintr)]
    have hrest : ∀ f0 ∈ rest, parseLuaContent f0.name f0.content = none ∨
        (∃ g, parseLuaContent f0.name f0.content = some g ∧
          (g.difficulty = none ∨ g.durationSeconds = none)) :=
      fun f0 hf0 => h f0 (List.mem_cons_of_mem _ hf0)
    have : processNewFiles (st, i, e) (f :: rest) =
        processNewFiles (st, i, e + 1) rest := by
      unfold processNewFiles
      rw [List.foldl_cons, hstep]
    rw [this]
    exact ih (e + 1) hrest

/-- Unfolded form of `ingestFiles`. -/
theorem ingestFiles_eq (s : Store) (files : List LuaFile) :
    ingestFiles s files =
      (if (files.filter (fun f => f.name ∉ filenames s)).isEmpty then
        (s, ⟨0, 0, files.length⟩)
      else
        ((if (processNewFiles (s, 0, 0)
              (files.filter (fun f => f.name ∉ filenames s))).2.1 > 0 then
            backfillUnknownPlayerNames
              (processNewFiles (s, 0, 0)
                (files.filter (fun f => f.name ∉ filenames s))).1
          else
            (processNewFiles (s, 0, 0)
              (files.filter (fun f => f.name ∉ filenames s))).1),
         ⟨(processNewFiles (s, 0, 0)
             (files.filter (fun f => f.name ∉ filenames s))).2.1,
          (processNewFiles (s, 0, 0)
             (files.filter (fun f => f.name ∉ filenames s))).2.2,
          files.length⟩)) := rfl

/-- Name backfill does not touch the games table. -/
theorem backfill_filenames (s : Store) :
    filenames (backfillUnknownPlayerNames s) = filenames s := rfl

/-- C2: running `ingestFiles` a second time over the same file list leaves
the store unchanged and reports zero newly ingested files, so ingesting the
same file twice increments the ingested count only on the run that first
records it and inserts no duplicate rows: already-recorded filenames are
filtered out before processing, and the remaining files fail again
deterministically without touching the store. -/
theorem c2_reingest_idempotent (st : Store) (files : List LuaFile) :
    (ingestFiles (ingestFiles st files).1 files).1 = (ingestFiles st files).1 ∧
    (ingestFiles (ingestFiles st files).1 files).2.ingested = 0 := by
  by_cases h1 : (files.filter (fun f => f.name ∉ filenames st)).isEmpty
  · have hr1 : ingestFiles st files = (st, ⟨0, 0, files.length⟩) := by
      rw [ingestFiles_eq, if_pos h1]
    have hfst : (ingestFiles st files).1 = st := by rw [hr1]
    constructor
    · rw [hfst, hfst]
    · rw [hfst, hr1]
  · have hr1 : ingestFiles st files =
        ((if (processNewFiles (st, 0, 0)
              (files.filter (fun f => f.name ∉ filenames st))).2.1 > 0 then
            backfillUnknownPlayerNames
              (processNewFiles (st, 0, 0)
                (files.filter (fun f => f.name ∉ filenames st))).1
          else
            (processNewFiles (st, 0, 0)
              (files.filter (fun f => f.name ∉ filenames st))).1),
         ⟨(processNewFiles (st, 0, 0)
             (files.filter (fun f => f.name ∉ filenames st))).2.1,
          (processNewFiles (st, 0, 0)
             (files.filter (fun f => f.name ∉ filenames st))).2.2,
          files.length⟩) := by
      rw [ingestFiles_eq, if_neg h1]
    have hst1fn : filenames (ingestFiles st files).1 =
        filenames (processNewFiles (st, 0, 0)
          (files.filter (fun f => f.name ∉ filenames st))).1 := by
      rw [hr1]
      show filenames (if _ > 0 then backfillUnknownPlayerNames _ else _) = _
      split
      · exact backfill_filenames _
      · rfl
    have hstuckprem : ∀ f ∈ files.filter
        (fun f => f.name ∉ filenames (ingestFiles st files).1),
        parseLuaContent f.name f.content = none ∨
        (∃ g, parseLuaContent f.name f.content = some g ∧
          (g.difficulty = none ∨ g.durationSeconds = none)) := by
      intro f hf
      have hmemf : f ∈ files := List.mem_of_mem_filter hf
      have hnot : f.name ∉ filenames (ingestFiles st files).1 := by
        have := List.of_mem_filter hf
        simpa using this
      rw [hst1fn] at hnot
      have hfnew : f ∈ files.filter (fun f => f.name ∉ filenames st) := by
        rw [List.mem_filter]
        refine ⟨hmemf, ?_⟩
        simp only [decide_eq_true_eq]
        intro hin
        exact hnot (processNewFiles_mono _ (st, 0, 0) hin)
      rcases processNewFiles_covers
          (files.filter (fun f => f.name ∉ filenames st)) (st, 0, 0) f hfnew with
        hin | hp | hintr
      · exact absurd hin hnot
      · exact Or.inl hp
      · exact Or.inr hintr
    by_cases h2 : (files.filter
        (fun f => f.name ∉ filenames (ingestFiles st files).1)).isEmpty
    · have hr2 : ingestFiles (ingestFiles st files).1 files =
          ((ingestFiles st files).1, ⟨0, 0, files.length⟩) := by
        rw [ingestFiles_eq, if_pos h2]
      constructor
      · rw [hr2]
      · rw [hr2]
    · have hstuck := processNewFiles_stuck
        (files.filter (fun f => f.name ∉ filenames (ingestFiles st files).1))
        (ingestFiles st files).1 0 0 hstuckprem
      have hr2 : ingestFiles (ingestFiles st files).1 files =
          ((ingestFiles st files).1,
           ⟨0,
            (processNewFiles ((ingestFiles st files).1, 0, 0)
              (files.filter (fun f =>
                f.name ∉ filenames (ingestFiles st files).1))).2.2,
            files.length⟩) := by
        rw [ingestFiles_eq, if_neg h2, hstuck.2]
        simp only [gt_iff_lt, Nat.lt_irrefl, if_false]
        rw [hstuck.1]
      constructor
      · rw [hr2]
      · rw [hr2]

/-! ### Claim C6 -/

/-- The first element of minimal key in a candidate list: the earliest
declared property among those with the smallest childIds-list length. -/
def firstMinCand : List (String × Nat) → Option (String × Nat)
  | [] => none
  | x :: xs =>
    match firstMinCand xs with
    | none => some x
    | some y => some (if x.2 ≤ y.2 then x else y)

/-- The stable ascending sort by key starts with the earliest minimal
element, which is exactly what indexing the JS-sorted array at zero reads. -/
theorem insertionSort_head_firstMin (l : List (String × Nat)) :
    (List.insertionSort candLe l).head? = firstMinCand l := by
  induction l with
  | nil => rfl
  | cons x xs ih =>
    simp only [List.insertionSort]
    cases hs : List.insertionSort candLe xs with
    | nil =>
      rw [hs] at ih
      simp only [firstMinCand, ← ih]
      rfl
    | cons h t =>
      rw [hs] at ih
      simp only [firstMinCand, ← ih]
      by_cases hc : x.2 ≤ h.2
      · have hch : candLe x h := hc
        simp [List.orderedInsert, if_pos hch, if_pos hc]
      · have hch : ¬ candLe x h := hc
        simp [List.orderedInsert, if_neg hch, if_neg hc]

/-- The earliest minimal element is a member of the list. -/
theorem firstMinCand_mem (l : List (String × Nat)) (x : String × Nat)
    (h : firstMinCand l = some x) : x ∈ l := by
  induction l generalizing x with
  | nil => simp [firstMinCand] at h
  | cons a xs ih =>
    simp only [firstMinCand] at h
    cases hf : firstMinCand xs with
    | none =>
      rw [hf] at h
      simp at h
      exact h ▸ List.mem_cons_self _ _
    | some y =>
      rw [hf] at h
      simp only [Option.some.injEq] at h
      by_cases hc : a.2 ≤ y.2
      · rw [if_pos hc] at h
        subst h
        exact List.mem_cons_self _ _
      · rw [if_neg hc] at h
        subst h
        exact List.mem_cons_of_mem _ (ih _ hf)

/-- Splitting characterization: if everything declared before `(p, k)` has a
strictly larger key and everything after has a key at least `k`, the earliest
minimal element is `(p, k)`. -/
theorem firstMinCand_split (l1 l2 : List (String × Nat)) (p : String) (k : Nat)
    (h1 : ∀ x ∈ l1, k < x.2) (h2 : ∀ x ∈ l2, k ≤ x.2) :
    firstMinCand (l1 ++ (p, k) :: l2) = some (p, k) := by
  induction l1 with
  | nil =>
    simp only [List.nil_append]
    cases hf : firstMinCand l2 with
    | none => simp [firstMinCand, hf]
    | some y =>
      have hy : k ≤ y.2 := h2 y (firstMinCand_mem _ _ hf)
      simp [firstMinCand, hf, hy]
  | cons a l1' ih =>
    have ha : k < a.2 := h1 a (List.mem_cons_self _ _)
    simp only [List.cons_append, firstMinCand, List.append_eq]
    rw [ih (fun x hx => h1 x (List.mem_cons_of_mem _ hx))]
    simp [Nat.not_le.mpr ha]

/-- Key list of an association list. -/
def keysNodup {κ β : Type} (l : List (κ × β)) : Prop :=
  (l.map Prod.fst).Nodup

/-- Keys after a set: unchanged when the key was present, appended when
fresh. -/
theorem keys_setA {κ β : Type} [DecidableEq κ] (k : κ) (v : β)
    (l : List (κ × β)) :
    (setA k v l).map Prod.fst =
      if (lookupA k l).isSome then l.map Prod.fst
      else l.map Prod.fst ++ [k] := by
  induction l with
  | nil => simp [setA, lookupA]
  | cons e rest ih =>
    by_cases h : e.1 = k
    · simp [setA, h, lookupA]
    · simp only [setA, if_neg h, lookupA, List.map_cons, ih]
      split <;> simp

/-- A lookup that misses means the key is fresh. -/
theorem lookupA_eq_none {κ β : Type} [DecidableEq κ] (k : κ)
    (l : List (κ × β)) (h : k ∉ l.map Prod.fst) : lookupA k l = none := by
  induction l with
  | nil => rfl
  | cons e rest ih =>
    simp only [List.map_cons, List.mem_cons] at h
    push_neg at h
    simp only [lookupA]
    rw [if_neg (fun (he : e.1 = k) => h.1 he.symm)]
    exact ih h.2

/-- A key that occurs in the list is found by lookup. -/
theorem lookupA_isSome_of_mem {κ β : Type} [DecidableEq κ] {k : κ}
    {l : List (κ × β)} (h : k ∈ l.map Prod.fst) : (lookupA k l).isSome := by
  induction l with
  | nil => simp at h
  | cons e rest ih =>
    simp only [List.map_cons, List.mem_cons] at h
    by_cases he : e.1 = k
    · simp [lookupA, he]
    · rcases h with h | h
      · exact absurd h.symm he
      · simp only [lookupA, if_neg he]
        exact ih h

/-- JS property assignment preserves key distinctness. -/
theorem keysNodup_setA {κ β : Type} [DecidableEq κ] (k : κ) (v : β)
    (l : List (κ × β)) (h : keysNodup l) : keysNodup (setA k v l) := by
  unfold keysNodup at h ⊢
  rw [keys_setA]
  split
  · exact h
  · rename_i hnone
    have hk : k ∉ l.map Prod.fst := fun hmem => hnone (lookupA_isSome_of_mem hmem)
    rw [List.nodup_append]
    exact ⟨h, List.nodup_singleton _,
      fun a ha hb => by simp at hb; subst hb; exact hk ha⟩

/-- Recording a candidate preserves key distinctness. -/
theorem keysNodup_pushCand (acc : List (String × List (String × Nat)))
    (childId : String) (pair : String × Nat) (h : keysNodup acc) :
    keysNodup (pushCand acc childId pair) := by
  unfold pushCand
  cases hl : lookupA childId acc with
  | some l => exact keysNodup_setA _ _ _ h
  | none =>
    unfold keysNodup at h ⊢
    rw [List.map_append, List.nodup_append]
    refine ⟨h, List.nodup_singleton _, fun a ha hb => ?_⟩
    simp at hb
    subst hb
    have := lookupA_isSome_of_mem (l := acc) ha
    rw [hl] at this
    simp at this

/-- The child loop of candidate collection preserves key distinctness. -/
theorem keysNodup_candChildFold (props : List (String × PropMeta))
    (rowId : String) (cnt : Nat) (childList : List String)
    (acc : List (String × List (String × Nat))) (h : keysNodup acc) :
    keysNodup (childList.foldl (candChildStep props rowId cnt) acc) := by
  induction childList generalizing acc with
  | nil => exact h
  | cons c rest ih =>
    rw [List.foldl_cons]
    apply ih
    unfold candChildStep
    cases hc : lookupA c props with
    | none => exact h
    | some cm =>
      by_cases hp : cm.parentId = none
      · simpa [hp] using keysNodup_pushCand acc c (rowId, cnt) h
      · simpa [hp] using h

/-- The candidates map has pairwise distinct child keys. -/
theorem keysNodup_collectCandidates (props : List (String × PropMeta)) :
    keysNodup (collectCandidates props) := by
  unfold collectCandidates
  have main : ∀ (entries : List (String × PropMeta))
      (acc : List (String × List (String × Nat))), keysNodup acc →
      keysNodup (entries.foldl (candEntryStep props) acc) := by
    intro entries
    induction entries with
    | nil => exact fun acc h => h
    | cons e rest ih =>
      intro acc h
      rw [List.foldl_cons]
      apply ih
      unfold candEntryStep
      cases e.2.childIds with
      | none => exact h
      | some s =>
        by_cases hs : s = ""
        · simpa [hs] using h
        · simpa [hs] using keysNodup_candChildFold props e.1
            (jsSplit ':' s).length (jsSplit ':' s) acc h
  exact main props [] (by simp [keysNodup])

/-- Assigning a different candidate key does not change a lookup. -/
theorem lookupA_candAssignStep_ne (ps : List (String × PropMeta))
    (ce : String × List (String × Nat)) (c : String) (hne : ce.1 ≠ c) :
    lookupA c (candAssignStep ps ce) = lookupA c ps := by
  unfold candAssignStep
  cases (List.insertionSort candLe ce.2).head? with
  | some best => exact lookupA_modifyA_ne _ _ hne
  | none => rfl

/-- Candidate entries whose key is absent do not change a lookup. -/
theorem applyCandidates_notmem (cands : List (String × List (String × Nat)))
    (props : List (String × PropMeta)) (c : String)
    (hc : c ∉ cands.map Prod.fst) :
    lookupA c (applyCandidates props cands) = lookupA c props := by
  induction cands generalizing props with
  | nil => rfl
  | cons e rest ih =>
    simp only [List.map_cons, List.mem_cons] at hc
    push_neg at hc
    show lookupA c (applyCandidates (candAssignStep props e) rest) = _
    rw [ih _ hc.2, lookupA_candAssignStep_ne _ _ _ (fun he => hc.1 he.symm)]

/-- The parent assigned by the candidate loop for child `c` is the head of
the stable sort of its recorded options. -/
theorem applyCandidates_lookup (cands : List (String × List (String × Nat)))
    (props : List (String × PropMeta)) (c : String)
    (opts : List (String × Nat)) (hnd : keysNodup cands)
    (hc : lookupA c cands = some opts) :
    lookupA c (applyCandidates props cands) =
      match (List.insertionSort candLe opts).head? with
      | some best =>
        (lookupA c props).map (fun m => { m with parentId := some best.1 })
      | none => lookupA c props := by
  induction cands generalizing props with
  | nil => simp [lookupA] at hc
  | cons e rest ih =>
    unfold keysNodup at hnd
    simp only [List.map_cons, List.nodup_cons] at hnd
    obtain ⟨hnotin, hndrest⟩ := hnd
    by_cases hcc : e.1 = c
    · have hopts : e.2 = opts := by simpa [lookupA, hcc] using hc
      have hrest_none : c ∉ rest.map Prod.fst := hcc ▸ hnotin
      show lookupA c (applyCandidates (candAssignStep props e) rest) = _
      rw [applyCandidates_notmem rest _ c hrest_none]
      unfold candAssignStep
      rw [hopts, hcc]
      cases (List.insertionSort candLe opts).head? with
      | some best => exact lookupA_modifyA_self _ _ _
      | none => rfl
    · have hcrest : lookupA c rest = some opts := by
        simpa [lookupA, hcc] using hc
      show lookupA c (applyCandidates (candAssignStep props e) rest) = _
      rw [ih _ hndrest hcrest]
      rw [lookupA_candAssignStep_ne _ _ _ hcc]

/-- C6: in the orphan-linking step, a parentless child id recorded with one
or more candidates takes as parent the candidate whose childIds list length
is smallest, declaration order breaking ties: writing the candidate list as
earlier strictly-longer entries, the winner `(p, k)`, and later entries of
length at least `k`, the child ends with parent `p`. -/
theorem c6_orphan_min_length_wins (props : List (String × PropMeta))
    (c : String) (opts l1 l2 : List (String × Nat)) (p : String) (k : Nat)
    (m0 : PropMeta)
    (hc : lookupA c (collectCandidates props) = some opts)
    (hsplit : opts = l1 ++ (p, k) :: l2)
    (hmin1 : ∀ x ∈ l1, k < x.2)
    (hmin2 : ∀ x ∈ l2, k ≤ x.2)
    (hprop : lookupA c props = some m0) :
    lookupA c (applyCandidates props (collectCandidates props)) =
      some { m0 with parentId := some p } := by
  rw [applyCandidates_lookup _ _ _ _ (keysNodup_collectCandidates props) hc]
  rw [insertionSort_head_firstMin, hsplit, firstMinCand_split l1 l2 p k hmin1 hmin2]
  rw [hprop]
  rfl

/-- The parentless metadata literal used by the C6 witness. -/
def c6meta (childIds : Option String) : PropMeta :=
  { displayName := "d", groupId := some "g", groupName := some "G",
    sortDirection := "ASC", isSummary := false, parentId := none,
    childIds := childIds, rowOrder := some 0, visible := true, pluginId := "" }

/-- Witness for C6: with A listing childIds "X:Y" and B listing "X", the
unparented child X resolves to B (list length 1 beats 2). -/
theorem c6_witness :
    lookupA "X" (applyCandidates
      [("A", c6meta (some "X:Y")), ("B", c6meta (some "X")),
       ("X", c6meta none), ("Y", c6meta none)]
      (collectCandidates
        [("A", c6meta (some "X:Y")), ("B", c6meta (some "X")),
         ("X", c6meta none), ("Y", c6meta none)])) =
      some { c6meta none with parentId := some "B" } :=
  c6_orphan_min_length_wins
    [("A", c6meta (some "X:Y")), ("B", c6meta (some "X")),
     ("X", c6meta none), ("Y", c6meta none)]
    "X" [("A", 2), ("B", 1)] [("A", 2)] [] "B" 1 (c6meta none)
    (by decide) (by decide) (by decide) (by decide) (by decide)

/-! ### Claim C4 -/

/-- The last element of a nonempty cons list is the last element of the tail
when there is one, else the head. -/
theorem getLast?_cons_merge {α : Type} (a : α) (l : List α) :
    (a :: l).getLast? =
      match l.getLast? with
      | some x => some x
      | none => some a := by
  cases l with
  | nil => rfl
  | cons b t =>
    rw [List.getLast?_cons_cons]
    cases h : (b :: t).getLast? with
    | some x => rfl
    | none => simp [List.getLast?_eq_none_iff] at h

/-- Looking up a key in a keyed map of an association list applies the
per-entry rewrite to the looked-up value. -/
theorem lookupA_map_keyfix {κ β : Type} [DecidableEq κ]
    (F : (κ × β) → (κ × β)) (hF : ∀ e, (F e).1 = e.1) (l : List (κ × β))
    (k : κ) :
    lookupA k (l.map F) = (lookupA k l).map (fun v => (F (k, v)).2) := by
  induction l with
  | nil => rfl
  | cons e rest ih =>
    rcases e with ⟨e1, e2⟩
    simp only [List.map_cons, lookupA, hF]
    by_cases he : e1 = k
    · subst he
      simp
    · simp [he, ih]

/-- The plugin-fallback rewrite keeps the property id. -/
theorem pluginFallbackFn_fst (pp : List (String × String))
    (e : String × PropMeta) : (pluginFallbackFn pp e).1 = e.1 := by
  unfold pluginFallbackFn
  split
  · rfl
  · split
    · split
      · split <;> rfl
      · rfl
    · rfl

/-- The recorded plugin parent for a plugin id is the most recently declared
visible, parentless property carrying that id. -/
theorem lookupA_collectPluginParents (props : List (String × PropMeta))
    (plug : String) (hplug : plug ≠ "") :
    lookupA plug (collectPluginParents props) =
      match (props.filter (fun e =>
        e.2.pluginId = plug && e.2.visible && e.2.parentId = none)).getLast? with
      | some x => some x.1
      | none => none := by
  unfold collectPluginParents
  have main : ∀ (entries : List (String × PropMeta))
      (acc : List (String × String)),
      lookupA plug (entries.foldl pluginParentStep acc) =
        match (entries.filter (fun e =>
          e.2.pluginId = plug && e.2.visible &&
            e.2.parentId = none)).getLast? with
        | some x => some x.1
        | none => lookupA plug acc := by
    intro entries
    induction entries with
    | nil => intro acc; rfl
    | cons e rest ih =>
      intro acc
      rw [List.foldl_cons, ih (pluginParentStep acc e)]
      by_cases hq : e.2.pluginId = plug ∧ e.2.visible = true ∧
          e.2.parentId = none
      · obtain ⟨hq1, hq2, hq3⟩ := hq
        have hfilter : (e :: rest).filter (fun e =>
            e.2.pluginId = plug && e.2.visible && e.2.parentId = none) =
            e :: rest.filter (fun e =>
              e.2.pluginId = plug && e.2.visible && e.2.parentId = none) := by
          simp [List.filter_cons, hq1, hq2, hq3]
        rw [hfilter, getLast?_cons_merge]
        cases hrest : (rest.filter (fun e =>
            e.2.pluginId = plug && e.2.visible &&
              e.2.parentId = none)).getLast? with
        | some x => rfl
        | none =>
          have hstep : pluginParentStep acc e = setA e.2.pluginId e.1 acc := by
            unfold pluginParentStep
            rw [if_pos]
            simp [hq1, hplug, hq2, hq3]
          rw [hstep, hq1, lookupA_setA_self]
      · have hcond : ¬((e.2.pluginId = plug && e.2.visible &&
            e.2.parentId = none : Bool) = true) := by
          intro hc
          apply hq
          simpa [and_assoc] using hc
        have hfilter : (e :: rest).filter (fun e =>
            e.2.pluginId = plug && e.2.visible && e.2.parentId = none) =
            rest.filter (fun e =>
              e.2.pluginId = plug && e.2.visible && e.2.parentId = none) := by
          simp only [List.filter_cons]
          rw [if_neg hcond]
        rw [hfilter]
        cases hrest : (rest.filter (fun e =>
            e.2.pluginId = plug && e.2.visible &&
              e.2.parentId = none)).getLast? with
        | some x => rfl
        | none =>
          unfold pluginParentStep
          by_cases hpred : (decide (e.2.pluginId ≠ "") && e.2.visible &&
              decide (e.2.parentId = none)) = true
          · rw [if_pos hpred]
            have hp2 : e.2.pluginId ≠ "" ∧ e.2.visible = true ∧
                e.2.parentId = none := by
              simpa [and_assoc] using hpred
            have hne2 : e.2.pluginId ≠ plug :=
              fun heq => hq ⟨heq, hp2.2.1, hp2.2.2⟩
            exact lookupA_setA_ne _ _ hne2
          · rw [if_neg hpred]
  rw [main props []]
  rfl

/-- Counterexample to C4: in a file declaring two visible parentless
properties P1 and P2 sharing plugin id "g" and an invisible parentless X with
the same plugin id, X does not remain parentless: it attaches to P2, the last
declared holder. -/
theorem c4_counterexample :
    (parseLuaContent "1.lua"
      "#row;P1;0;0;<p1>;ASC;x;t;x;g\n#row;P2;0;0;<p2>;ASC;x;t;x;g\n#row;X;0;0;<x>;ASC;x;false;x;g").map
      (fun g =>
        ((lookupA "P1" g.propertyMetadata).map (fun m => (m.visible, m.parentId)),
         (lookupA "P2" g.propertyMetadata).map (fun m => (m.visible, m.parentId)),
         (lookupA "X" g.propertyMetadata).map
           (fun m => (m.visible, m.pluginId, m.parentId)))) =
      some (some (true, none), some (true, none),
        some (false, "g", some "P2")) := rfl

/-- C4 amended: the plugin-fallback step attaches a still-parentless
invisible property carrying a plugin id to the most recently declared
visible, still-parentless property sharing that plugin id, whenever at least
one such property exists and differs from the property itself; with two or
more candidates the last declared wins (the property does not remain
parentless). -/
theorem c4_plugin_fallback_last_wins (props : List (String × PropMeta))
    (rid : String) (m : PropMeta) (plug p : String)
    (hm : lookupA rid props = some m)
    (hinv : m.visible = false)
    (hpl : m.parentId = none)
    (hplug : m.pluginId = plug)
    (hne : plug ≠ "")
    (hlast : ((props.filter (fun e =>
        e.2.pluginId = plug && e.2.visible &&
          e.2.parentId = none)).getLast?).map Prod.fst = some p)
    (hpne : p ≠ rid) :
    lookupA rid (applyPluginFallback props) =
      some { m with parentId := some p } := by
  have hlook : lookupA m.pluginId (collectPluginParents props) = some p := by
    rw [hplug, lookupA_collectPluginParents props plug hne]
    cases hgl : (props.filter (fun e =>
        e.2.pluginId = plug && e.2.visible &&
          e.2.parentId = none)).getLast? with
    | none => rw [hgl] at hlast; simp at hlast
    | some x =>
      rw [hgl] at hlast
      simp at hlast
      simp [hlast]
  have hattach : pluginFallbackFn (collectPluginParents props) (rid, m) =
      (rid, { m with parentId := some p }) := by
    unfold pluginFallbackFn
    have hc1 : ¬((((rid, m) : String × PropMeta).2.parentId ≠ none ||
        (rid, m).2.visible) = true) := by
      simp [hpl, hinv]
    rw [if_neg hc1]
    rw [if_pos (show ((rid, m) : String × PropMeta).2.pluginId ≠ "" by
      simpa [hplug] using hne)]
    rw [show lookupA (((rid, m) : String × PropMeta).2.pluginId)
      (collectPluginParents props) = some p from hlook]
    simp [hpne]
  unfold applyPluginFallback
  rw [lookupA_map_keyfix _ (pluginFallbackFn_fst _) props rid, hm]
  simp [hattach]

/-- The metadata literal used by the C4 witness. -/
def c4meta (visible : Bool) : PropMeta :=
  { displayName := "d", groupId := some "gid", groupName := some "G",
    sortDirection := "ASC", isSummary := false, parentId := none,
    childIds := none, rowOrder := some 0, visible := visible,
    pluginId := "g" }

/-- Witness for C4 (amended): with visible parentless P1 and P2 sharing
plugin id "g", the invisible X attaches to P2, the last declared one. -/
theorem c4_witness :
    lookupA "X" (applyPluginFallback
      [("P1", c4meta true), ("P2", c4meta true), ("X", c4meta false)]) =
      some { c4meta false with parentId := some "P2" } :=
  c4_plugin_fallback_last_wins
    [("P1", c4meta true), ("P2", c4meta true), ("X", c4meta false)]
    "X" (c4meta false) "g" "P2" (by decide) (by decide) (by decide)
    (by decide) (by decide) (by decide) (by decide)

/-! ### Claim C3 -/

/-- The data-line loop never touches the property metadata. -/
theorem dataLoop_propMeta (known : List String) (rowId : String) (n : Nat)
    (lines : List String) (idx : Nat) (g : GameDraft) :
    (dataLoop known rowId n lines idx g).2.propertyMetadata =
      g.propertyMetadata := by
  induction n generalizing idx g with
  | zero => rfl
  | succ n ih =>
    cases h : lines.get? (idx + 1) with
    | none => simp only [dataLoop, h]
    | some l =>
      simp only [dataLoop, h]
      split
      · rfl
      · split
        · exact ih _ _
        · rw [ih]
          split
          · split <;> rfl
          · rfl

/-- The players loop never touches the property metadata. -/
theorem playersLoop_propMeta (n : Nat) (lines : List String) (idx : Nat)
    (st : PState) :
    (playersLoop n lines idx st).2.game.propertyMetadata =
      st.game.propertyMetadata := by
  induction n generalizing idx st with
  | zero => rfl
  | succ n ih =>
    cases h : lines.get? (idx + 1) with
    | none => simp only [playersLoop, h]
    | some l =>
      simp only [playersLoop, h]
      split
      · exact ih _ _
      · rw [ih]

/-- The mission directive never touches the property metadata. -/
theorem parseMissionLine_propMeta (line : String) (g : GameDraft) :
    (parseMissionLine line g).propertyMetadata = g.propertyMetadata := by
  unfold parseMissionLine
  by_cases h : (jsSplit ';' line).length < 3 <;> simp [h]

/-- The players section never touches the property metadata. -/
theorem parsePlayersSection_propMeta (lines : List String) (idx : Nat)
    (st : PState) :
    (parsePlayersSection lines idx st).2.game.propertyMetadata =
      st.game.propertyMetadata := by
  simp only [parsePlayersSection]
  split
  · rfl
  · exact playersLoop_propMeta _ _ _ _

/-- The row section preserves distinctness of metadata keys. -/
theorem parseRowSection_nodup (lines : List String) (idx : Nat) (line : String)
    (st : PState) (gid gname : Option String)
    (h : keysNodup st.game.propertyMetadata) :
    keysNodup (parseRowSection lines idx line st gid gname).2.game.propertyMetadata := by
  simp only [parseRowSection]
  split
  · exact h
  · rw [dataLoop_propMeta]
    exact keysNodup_setA _ _ _ h

/-- The directive loop preserves distinctness of metadata keys. -/
theorem parseLoop_nodup (fuel : Nat) (lines : List String) (idx : Nat)
    (st : PState) (gid gname : Option String)
    (h : keysNodup st.game.propertyMetadata) :
    keysNodup (parseLoop fuel lines idx st gid gname).game.propertyMetadata := by
  induction fuel generalizing idx st gid gname with
  | zero => exact h
  | succ fuel ih =>
    simp only [parseLoop]
    split
    · split
      · exact ih _ _ _ _ h
      · split
        · refine ih _ _ _ _ ?_
          show keysNodup
            (parseMissionLine (trimJS (lines.getD idx "")) st.game).propertyMetadata
          unfold keysNodup
          rw [parseMissionLine_propMeta]
          exact h
        · split
          · refine ih _ _ _ _ ?_
            show keysNodup
              (parsePlayersSection lines idx st).2.game.propertyMetadata
            unfold keysNodup
            rw [parsePlayersSection_propMeta]
            exact h
          · split
            · exact ih _ _ _ _ h
            · split
              · exact ih _ _ _ _ (parseRowSection_nodup _ _ _ _ _ _ h)
              · exact ih _ _ _ _ h
    · exact h

/-- The parsed draft has pairwise distinct property ids. -/
theorem parseLuaContentCore_nodup (name content : String) (d : GameDraft)
    (h : parseLuaContentCore name content = some d) :
    keysNodup d.propertyMetadata := by
  unfold parseLuaContentCore at h
  cases hts : parseIntJS (stripLuaExt name) with
  | none => rw [hts] at h; simp at h
  | some ts =>
    rw [hts] at h
    simp at h
    rw [← h]
    exact parseLoop_nodup _ _ _ _ _ _ (by simp [keysNodup])

/-- With all childIds fields nil, no candidates are collected. -/
theorem collectCandidates_nil (props : List (String × PropMeta))
    (h : ∀ e ∈ props, e.2.childIds = none) :
    collectCandidates props = [] := by
  unfold collectCandidates
  have main : ∀ (entries : List (String × PropMeta))
      (acc : List (String × List (String × Nat))),
      (∀ e ∈ entries, e.2.childIds = none) →
      entries.foldl (candEntryStep props) acc = acc := by
    intro entries
    induction entries with
    | nil => intro acc _; rfl
    | cons e rest ih =>
      intro acc hall
      rw [List.foldl_cons]
      have hstep : candEntryStep props acc e = acc := by
        unfold candEntryStep
        rw [hall e (List.mem_cons_self _ _)]
      rw [hstep]
      exact ih acc (fun q hq => hall q (List.mem_cons_of_mem _ hq))
  exact main props [] h

/-- Lookup of a binding present in a key-distinct list. -/
theorem lookupA_of_mem_nodup {κ β : Type} [DecidableEq κ] {l : List (κ × β)}
    {k : κ} {v : β} (hnd : keysNodup l) (hmem : (k, v) ∈ l) :
    lookupA k l = some v := by
  induction l with
  | nil => simp at hmem
  | cons e rest ih =>
    unfold keysNodup at hnd
    simp only [List.map_cons, List.nodup_cons] at hnd
    rcases List.mem_cons.mp hmem with heq | hmem'
    · rw [← heq]
      simp [lookupA]
    · have hke : e.1 ≠ k := by
        intro hek
        apply hnd.1
        rw [hek]
        exact List.mem_map_of_mem Prod.fst hmem'
      simp only [lookupA, if_neg hke]
      exact ih hnd.2 hmem'

/-- Lookup through the parentId projection of the metadata. -/
theorem lookupA_projPid (l : List (String × PropMeta)) (k : String) :
    lookupA k (l.map (fun e => (e.1, e.2.parentId))) =
      (lookupA k l).map (fun m => m.parentId) := by
  induction l with
  | nil => rfl
  | cons e rest ih =>
    simp only [List.map_cons, lookupA]
    by_cases he : e.1 = k
    · simp [he]
    · simp [he, ih]

/-- Modifying a value without touching its parentId leaves the parentId
projection of the list unchanged. -/
theorem projPid_modifyA (k : String) (f : PropMeta → PropMeta)
    (hf : ∀ m, (f m).parentId = m.parentId) (l : List (String × PropMeta)) :
    (modifyA k f l).map (fun e => (e.1, e.2.parentId)) =
      l.map (fun e => (e.1, e.2.parentId)) := by
  induction l with
  | nil => rfl
  | cons e rest ih =>
    by_cases he : e.1 = k
    · simp [modifyA, he, hf]
    · simp [modifyA, he, ih]

/-- One display-name expansion step leaves the parentId projection
unchanged. -/
theorem expandStep_projPid (rawNames : List (String × String))
    (acc : List (String × PropMeta)) (rowId : String) :
    (expandStep rawNames acc rowId).map (fun e => (e.1, e.2.parentId)) =
      acc.map (fun e => (e.1, e.2.parentId)) := by
  unfold expandStep
  split
  · rfl
  · split
    · split
      · rfl
      · split
        · rfl
        · apply projPid_modifyA
          intro m
          rfl
    · rfl

/-- The display-name expansion pass leaves the parentId projection of the
metadata unchanged. -/
theorem expand_projPid (g : GameDraft) :
    (expandChildDisplayNames g).propertyMetadata.map
      (fun e => (e.1, e.2.parentId)) =
      g.propertyMetadata.map (fun e => (e.1, e.2.parentId)) := by
  unfold expandChildDisplayNames
  have main : ∀ (ks : List String) (acc : List (String × PropMeta)),
      ((ks.foldl (expandStep (g.propertyMetadata.map
        (fun e => (e.1, e.2.displayName)))) acc).map
          (fun e => (e.1, e.2.parentId))) =
        acc.map (fun e => (e.1, e.2.parentId)) := by
    intro ks
    induction ks with
    | nil => intro acc; rfl
    | cons k rest ih =>
      intro acc
      rw [List.foldl_cons, ih, expandStep_projPid]
  exact main _ _

/-- Lookup of a parentId after display-name expansion. -/
theorem expand_lookup_parentId (g : GameDraft) (k : String) :
    (lookupA k (expandChildDisplayNames g).propertyMetadata).map
      (fun m => m.parentId) =
      (lookupA k g.propertyMetadata).map (fun m => m.parentId) := by
  rw [← lookupA_projPid, expand_projPid, lookupA_projPid]

/-- Every metadata entry after display-name expansion has a source entry
with the same id and parentId. -/
theorem expand_mem_parentId (g : GameDraft) (e : String × PropMeta)
    (he : e ∈ (expandChildDisplayNames g).propertyMetadata) :
    ∃ e0 ∈ g.propertyMetadata, e0.1 = e.1 ∧ e0.2.parentId = e.2.parentId := by
  have hm : (e.1, e.2.parentId) ∈
      (expandChildDisplayNames g).propertyMetadata.map
        (fun e => (e.1, e.2.parentId)) :=
    List.mem_map_of_mem _ he
  rw [expand_projPid] at hm
  obtain ⟨e0, he0, heq⟩ := List.mem_map.mp hm
  simp only [Prod.mk.injEq] at heq
  exact ⟨e0, he0, heq.1, heq.2⟩

/-- If the plugin fallback assigned a parent to a formerly parentless entry,
the parent came from the plugin-parents map of the (truthy) plugin id. -/
theorem pluginFallbackFn_parent_cases (pp : List (String × String))
    (e0 : String × PropMeta) (p : String)
    (h0 : e0.2.parentId = none)
    (hp : (pluginFallbackFn pp e0).2.parentId = some p) :
    lookupA e0.2.pluginId pp = some p ∧ e0.2.pluginId ≠ "" := by
  unfold pluginFallbackFn at hp
  split at hp
  · rw [h0] at hp; simp at hp
  · split at hp
    · rename_i hplug
      split at hp
      · rename_i p' hlp
        split at hp
        · simp at hp
          exact ⟨hp ▸ hlp, hplug⟩
        · rw [h0] at hp; simp at hp
      · rw [h0] at hp; simp at hp
    · rw [h0] at hp; simp at hp

/-- A visible entry passes through the plugin fallback unchanged. -/
theorem pluginFallbackFn_visible (pp : List (String × String)) (k : String)
    (m : PropMeta) (hv : m.visible = true) :
    pluginFallbackFn pp (k, m) = (k, m) := by
  unfold pluginFallbackFn
  rw [if_pos]
  simp [hv]

/-- Counterexample to C3: a single row directive carrying the raw parentId
"A" for property "A" itself survives the hierarchy post-passes, so the
parsed metadata maps "A" to parent "A" and the parent walk from "A" revisits
"A" forever (no forest, a self-parent). -/
theorem c3_counterexample :
    (parseLuaContent "1.lua" "#row;A;0;0;<a>;ASC;x;x;x;g;A").map
      (fun g => (lookupA "A" g.propertyMetadata).map (fun m => m.parentId)) =
      some (some (some "A")) := rfl

/-- C3 amended: for an input whose parsed raw metadata carries no parentId
and no childIds fields at all, the hierarchy post-passes produce a forest:
every parent link introduced by the plugin fallback points at a property
whose own parent link is empty, so the parent walk from any property
terminates after at most one step. For arbitrary raw parentId or childIds
fields the claim fails (see the counterexample). -/
theorem c3_forest_when_raw_nil (name content : String) (d fg : GameDraft)
    (hcore : parseLuaContentCore name content = some d)
    (hraw : ∀ e ∈ d.propertyMetadata, e.2.parentId = none ∧ e.2.childIds = none)
    (hfull : parseLuaContent name content = some fg) :
    ∀ e ∈ fg.propertyMetadata, ∀ p, e.2.parentId = some p →
      ∃ m', lookupA p fg.propertyMetadata = some m' ∧ m'.parentId = none := by
  have hfg : fg = expandChildDisplayNames (linkOrphanedChildren d) := by
    unfold parseLuaContent at hfull
    rw [hcore] at hfull
    simp at hfull
    exact hfull.symm
  have hnodup : keysNodup d.propertyMetadata :=
    parseLuaContentCore_nodup _ _ _ hcore
  have hcand : collectCandidates d.propertyMetadata = [] :=
    collectCandidates_nil _ (fun e he => (hraw e he).2)
  have hlink : linkOrphanedChildren d =
      { d with propertyMetadata := applyPluginFallback d.propertyMetadata } := by
    unfold linkOrphanedChildren
    rw [hcand]
    rfl
  subst hfg
  rw [hlink]
  intro e he p hp
  obtain ⟨e0, he0, hid0, hpid0⟩ := expand_mem_parentId _ e he
  have he0' : e0 ∈ applyPluginFallback d.propertyMetadata := he0
  unfold applyPluginFallback at he0'
  obtain ⟨e1, he1, hfn⟩ := List.mem_map.mp he0'
  have hraw1 := (hraw e1 he1).1
  have hp0 : e0.2.parentId = some p := hpid0.trans hp
  obtain ⟨hlook, hplug⟩ := pluginFallbackFn_parent_cases
    (collectPluginParents d.propertyMetadata) e1 p hraw1 (by rw [hfn]; exact hp0)
  rw [lookupA_collectPluginParents _ _ hplug] at hlook
  cases hgl : (d.propertyMetadata.filter (fun e =>
      e.2.pluginId = e1.2.pluginId && e.2.visible &&
        e.2.parentId = none)).getLast? with
  | none => rw [hgl] at hlook; simp at hlook
  | some x =>
    rw [hgl] at hlook
    simp only [Option.some.injEq] at hlook
    have hxmem := List.mem_filter.mp (List.mem_of_mem_getLast? hgl)
    have hxcond := hxmem.2
    simp only [Bool.and_eq_true, decide_eq_true_eq] at hxcond
    have hxvis : x.2.visible = true := hxcond.1.2
    have hxpid : x.2.parentId = none := hxcond.2
    have hxlookup : lookupA x.1 d.propertyMetadata = some x.2 :=
      lookupA_of_mem_nodup hnodup (by rw [Prod.mk.eta]; exact hxmem.1)
    have hlook2 : lookupA x.1 (applyPluginFallback d.propertyMetadata) =
        some x.2 := by
      unfold applyPluginFallback
      rw [lookupA_map_keyfix _ (pluginFallbackFn_fst _) _ _, hxlookup]
      simp [pluginFallbackFn_visible _ _ _ hxvis]
    have hfinal := expand_lookup_parentId
      { d with propertyMetadata := applyPluginFallback d.propertyMetadata } x.1
    rw [show ({ d with propertyMetadata :=
        applyPluginFallback d.propertyMetadata } : GameDraft).propertyMetadata =
      applyPluginFallback d.propertyMetadata from rfl, hlook2] at hfinal
    cases hfin : lookupA x.1 (expandChildDisplayNames
        { d with propertyMetadata :=
          applyPluginFallback d.propertyMetadata }).propertyMetadata with
    | none => rw [hfin] at hfinal; simp at hfinal
    | some m' =>
      rw [hfin] at hfinal
      simp at hfinal
      refine ⟨m', ?_, ?_⟩
      · rw [← hlook]
        exact hfin
      · rw [hxpid] at hfinal
        exact hfinal

/-- Input file of the C3 witness: two rows grouped by a plugin id, with nil
raw parentId and childIds fields. -/
def c3wcontent : String :=
  "#row;P;0;0;<p>;ASC;x;t;x;g\n#row;X;0;0;<x>;ASC;x;false;x;g"

/-- The raw draft of the C3 witness file. -/
def c3wd : GameDraft := (parseLuaContentCore "2.lua" c3wcontent).get (by decide)

/-- The fully parsed game of the C3 witness file. -/
def c3wfg : GameDraft := (parseLuaContent "2.lua" c3wcontent).get (by decide)

/-- Metadata of the invisible row X in the fully parsed C3 witness file. -/
def c3wXm : PropMeta := (lookupA "X" c3wfg.propertyMetadata).get (by decide)

/-- Witness for C3 (amended): in the two-row plugin-grouped file the
invisible row X acquires parent P, and P itself is parentless, so the walk
from X stops after one step. -/
theorem c3_witness :
    (("X", c3wXm) ∈ c3wfg.propertyMetadata ∧ c3wXm.parentId = some "P") ∧
      ∃ m', lookupA "P" c3wfg.propertyMetadata = some m' ∧
        m'.parentId = none :=
  ⟨⟨by decide, by decide⟩,
   c3_forest_when_raw_nil "2.lua" c3wcontent c3wd c3wfg
     (Option.some_get _).symm (by decide) (Option.some_get _).symm
     ("X", c3wXm) (by decide) "P" (by decide)⟩

/-! ### C8: last-N mode of getGames -/

/-- Output length of the assembly stage equals the selected-game count. -/
theorem buildOutputs_length (st : Store) (p : GamesParams)
    (games : List GameRow) :
    (buildOutputs st p games).length = games.length := by
  unfold buildOutputs
  split
  · rename_i h
    rw [List.isEmpty_iff.mp h]
    rfl
  · simp

/-- The assembly stage preserves the id and timestamp columns. -/
theorem buildOutputs_proj (st : Store) (p : GamesParams)
    (games : List GameRow) :
    (buildOutputs st p games).map (fun o => (o.id, o.timestamp)) =
      games.map (fun g => (g.id, g.timestamp)) := by
  unfold buildOutputs
  split
  · rename_i h
    rw [List.isEmpty_iff.mp h]
    rfl
  · simp only [List.map_map]
    rfl

/-- The assembly stage sends ascending-sorted selections to outputs with
ascending timestamps. -/
theorem buildOutputs_pairwise (st : Store) (p : GamesParams)
    (games : List GameRow) (h : List.Pairwise gameLeAsc games) :
    List.Pairwise (fun a b : GameOut => a.timestamp ≤ b.timestamp)
      (buildOutputs st p games) := by
  unfold buildOutputs
  split
  · exact List.Pairwise.nil
  · refine List.pairwise_map.mpr ?_
    exact h.imp (fun hab => hab)

/-- Every assembled record is the projection of a selected game row. -/
theorem buildOutputs_mem (st : Store) (p : GamesParams)
    (games : List GameRow) (go : GameOut) (h : go ∈ buildOutputs st p games) :
    ∃ g, g ∈ games ∧ go.id = g.id ∧ go.timestamp = g.timestamp := by
  have h2 : (go.id, go.timestamp) ∈
      (buildOutputs st p games).map (fun o => (o.id, o.timestamp)) :=
    List.mem_map.mpr ⟨go, h, rfl⟩
  rw [buildOutputs_proj] at h2
  obtain ⟨g, hg, he⟩ := List.mem_map.mp h2
  simp only [Prod.mk.injEq] at he
  exact ⟨g, hg, he.1.symm, he.2.symm⟩

/-- Every selected game row is represented among the assembled records. -/
theorem buildOutputs_mem_rev (st : Store) (p : GamesParams)
    (games : List GameRow) (g : GameRow) (h : g ∈ games) :
    ∃ go, go ∈ buildOutputs st p games ∧ go.id = g.id ∧
      go.timestamp = g.timestamp := by
  have h2 : (g.id, g.timestamp) ∈ games.map (fun x => (x.id, x.timestamp)) :=
    List.mem_map.mpr ⟨g, h, rfl⟩
  rw [← buildOutputs_proj st p games] at h2
  obtain ⟨go, hgo, he⟩ := List.mem_map.mp h2
  simp only [Prod.mk.injEq] at he
  exact ⟨go, hgo, he.1, he.2⟩

/-- Counting the members of a duplicate-free subset inside a duplicate-free
list gives the length of the subset. -/
theorem countP_mem_of_nodup (L s : List Int) (hL : L.Nodup) (hs : s.Nodup)
    (hsub : ∀ x, x ∈ s → x ∈ L) :
    L.countP (fun x => decide (x ∈ s)) = s.length := by
  rw [List.countP_eq_length_filter]
  have hperm : List.Perm (L.filter (fun x => decide (x ∈ s))) s := by
    apply (List.perm_ext_iff_of_nodup (hL.filter _) hs).mpr
    intro a
    constructor
    · intro ha
      exact of_decide_eq_true (List.mem_filter.mp ha).2
    · intro ha
      exact List.mem_filter.mpr ⟨hsub a ha, decide_eq_true ha⟩
  exact hperm.length_eq

/-- Filtering game rows by membership of the id column in a duplicate-free
id list drawn from the rows keeps exactly one row per listed id. -/
theorem length_filter_mem_ids (rows : List GameRow) (ids : List Int)
    (hrows : (rows.map (fun g => g.id)).Nodup) (hids : ids.Nodup)
    (hsub : ∀ x, x ∈ ids → x ∈ rows.map (fun g => g.id)) :
    (rows.filter (fun g => g.id ∈ ids)).length = ids.length := by
  have h1 : (rows.filter (fun g => decide (g.id ∈ ids))).length
      = rows.countP (fun g => decide (g.id ∈ ids)) :=
    (List.countP_eq_length_filter _ _).symm
  have h2 : (rows.map (fun g => g.id)).countP (fun x => decide (x ∈ ids))
      = rows.countP (fun g => decide (g.id ∈ ids)) := by
    rw [List.countP_map]
    rfl
  rw [h1, ← h2]
  exact countP_mem_of_nodup _ _ hrows hids hsub

/-- Core of the last-N selection: re-fetching by the ids of the first N games
of the descending sort of the filtered rows and re-sorting ascending yields
min N (filtered count) rows, ascending, all filtered, and every filtered row
with an unselected id has a timestamp at most that of each selected row. -/
theorem lastN_core (rows M D : List GameRow) (pred : GameRow → Bool) (N : Nat)
    (ids : List Int) (S G : List GameRow)
    (hnodup : (rows.map (fun g => g.id)).Nodup)
    (hM : M = rows.filter pred)
    (hD : D = List.insertionSort gameLeDesc M)
    (hids : ids = (D.take N).map (fun r => r.id))
    (hS : S = rows.filter (fun g => g.id ∈ ids))
    (hG : G = List.insertionSort gameLeAsc S) :
    G.length = min N M.length ∧
    List.Pairwise gameLeAsc G ∧
    (∀ g, g ∈ G → g ∈ rows ∧ pred g = true) ∧
    (∀ g, g ∈ G → ∀ gr, gr ∈ rows → pred gr = true →
      (∀ g2, g2 ∈ G → g2.id ≠ gr.id) → gr.timestamp ≤ g.timestamp) := by
  have hpermD : List.Perm D M := by
    rw [hD]
    exact List.perm_insertionSort gameLeDesc M
  have hpermG : List.Perm G S := by
    rw [hG]
    exact List.perm_insertionSort gameLeAsc S
  have hsortedD : List.Pairwise gameLeDesc D := by
    rw [hD]
    exact List.sorted_insertionSort gameLeDesc M
  have hsortedG : List.Pairwise gameLeAsc G := by
    rw [hG]
    exact List.sorted_insertionSort gameLeAsc S
  have hMrows : ∀ g, g ∈ M → g ∈ rows := by
    intro g hg
    rw [hM] at hg
    exact (List.mem_filter.mp hg).1
  have hMpred : ∀ g, g ∈ M → pred g = true := by
    intro g hg
    rw [hM] at hg
    exact (List.mem_filter.mp hg).2
  have htake_sub : ∀ g, g ∈ D.take N → g ∈ M := by
    intro g hg
    exact hpermD.mem_iff.mp (List.mem_of_mem_take hg)
  have hids_sub : ∀ x, x ∈ ids → x ∈ rows.map (fun g => g.id) := by
    intro x hx
    rw [hids] at hx
    obtain ⟨r, hr, hre⟩ := List.mem_map.mp hx
    rw [← hre]
    exact List.mem_map.mpr ⟨r, hMrows r (htake_sub r hr), rfl⟩
  have hids_nodup : ids.Nodup := by
    have h2 : (M.map (fun g => g.id)).Nodup := by
      rw [hM]
      exact hnodup.sublist ((List.filter_sublist _).map _)
    have h1 : (D.map (fun g => g.id)).Nodup := ((hpermD.map _).nodup_iff).mpr h2
    have h3 : ids = (D.map (fun g => g.id)).take N := by
      rw [hids]
      exact List.map_take _ _ _
    rw [h3]
    exact h1.sublist (List.take_sublist _ _)
  have hinj : ∀ a, a ∈ rows → ∀ b, b ∈ rows → a.id = b.id → a = b := by
    intro a ha b hb hab
    exact List.inj_on_of_nodup_map hnodup ha hb hab
  have hSmem : ∀ g, g ∈ S ↔ (g ∈ rows ∧ g.id ∈ ids) := by
    intro g
    rw [hS]
    constructor
    · intro hg
      have h4 := List.mem_filter.mp hg
      exact ⟨h4.1, of_decide_eq_true h4.2⟩
    · intro h4
      exact List.mem_filter.mpr ⟨h4.1, decide_eq_true h4.2⟩
  have hGmem : ∀ g, g ∈ G ↔ (g ∈ rows ∧ g.id ∈ ids) := by
    intro g
    rw [hpermG.mem_iff]
    exact hSmem g
  have htake_mem : ∀ g, g ∈ rows → g.id ∈ ids → g ∈ D.take N := by
    intro g hg hgid
    rw [hids] at hgid
    obtain ⟨r, hr, hrid⟩ := List.mem_map.mp hgid
    have h5 : r = g := hinj r (hMrows r (htake_sub r hr)) g hg hrid
    rw [← h5]
    exact hr
  refine ⟨?_, hsortedG, ?_, ?_⟩
  · have l1 : G.length = S.length := hpermG.length_eq
    have l2 : S.length = ids.length := by
      rw [hS]
      exact length_filter_mem_ids rows ids hnodup hids_nodup hids_sub
    have l3 : ids.length = min N D.length := by
      rw [hids, List.length_map, List.length_take]
    have l4 : D.length = M.length := hpermD.length_eq
    rw [l1, l2, l3, l4]
  · intro g hg
    obtain ⟨h1, h2⟩ := (hGmem g).mp hg
    exact ⟨h1, hMpred g (htake_sub g (htake_mem g h1 h2))⟩
  · intro g hg gr hgrrows hgrpred hnone
    have hgtake : g ∈ D.take N := by
      obtain ⟨h1, h2⟩ := (hGmem g).mp hg
      exact htake_mem g h1 h2
    have hgrM : gr ∈ M := by
      rw [hM]
      exact List.mem_filter.mpr ⟨hgrrows, hgrpred⟩
    have hgrD : gr ∈ D := hpermD.mem_iff.mpr hgrM
    have hgrnt : gr ∉ D.take N := by
      intro hgrt
      have hgrid : gr.id ∈ ids := by
        rw [hids]
        exact List.mem_map.mpr ⟨gr, hgrt, rfl⟩
      exact hnone gr ((hGmem gr).mpr ⟨hgrrows, hgrid⟩) rfl
    have hsplit : D.take N ++ D.drop N = D := List.take_append_drop N D
    have hpair : List.Pairwise gameLeDesc (D.take N ++ D.drop N) := by
      rw [hsplit]
      exact hsortedD
    have h3 := (List.pairwise_append.mp hpair).2.2
    have hgrdrop : gr ∈ D.drop N := by
      have h6 : gr ∈ D.take N ++ D.drop N := by
        rw [hsplit]
        exact hgrD
      rcases List.mem_append.mp h6 with h7 | h7
      · exact absurd h7 hgrnt
      · exact h7
    exact h3 g hgtake gr hgrdrop

/-- C8: in last-N mode (lastNGames some n with n positive), with a nonempty
requested property list and pairwise distinct game ids, getGames returns
exactly min n (matching count) records, hence at most n; they are sorted
ascending by timestamp; each record projects a stored game row passing the
result, difficulty, mission, modifier and time-window filters; and every
matching stored row whose id is absent from the output has a timestamp at
most that of each returned record, so the returned games are the n most
recent matching ones. -/
theorem c8_lastN_most_recent (st : Store) (p : GamesParams) (n : Int)
    (hn : p.lastNGames = some n) (hpos : 0 < n)
    (hprops : p.propertyIds ≠ [])
    (hnodup : (st.games.map (fun g => g.id)).Nodup) :
    (getGames st p).length
        = min n.toNat (st.games.filter (matchesWhere p)).length ∧
    (getGames st p).length ≤ n.toNat ∧
    List.Pairwise (fun a b : GameOut => a.timestamp ≤ b.timestamp)
      (getGames st p) ∧
    (∀ go, go ∈ getGames st p → ∃ g, g ∈ st.games ∧
        matchesWhere p g = true ∧ go.id = g.id ∧ go.timestamp = g.timestamp) ∧
    (∀ go, go ∈ getGames st p → ∀ gr, gr ∈ st.games →
        matchesWhere p gr = true →
        (∀ go2, go2 ∈ getGames st p → go2.id ≠ gr.id) →
        gr.timestamp ≤ go.timestamp) := by
  have hN : 0 < n.toNat := Int.lt_toNat.mpr hpos
  have hpe : p.propertyIds.isEmpty = false := by
    cases hq : p.propertyIds with
    | nil => exact absurd hq hprops
    | cons a l => rfl
  have hget : getGames st p = buildOutputs st p (selectGames st p) := by
    simp [getGames, hpe]
  have hsel : selectGames st p =
      (if (((List.insertionSort gameLeDesc
              (st.games.filter (matchesWhere p))).take n.toNat).map
            (fun r => r.id)).isEmpty then []
       else
         List.insertionSort gameLeAsc
           (st.games.filter (fun g =>
             g.id ∈ ((List.insertionSort gameLeDesc
               (st.games.filter (matchesWhere p))).take n.toNat).map
                 (fun r => r.id)))) := by
    simp only [selectGames, hn]
    rw [if_pos hpos]
  obtain ⟨hlen, hsorted, hmemM, hthresh⟩ :=
    lastN_core st.games (st.games.filter (matchesWhere p)) _ (matchesWhere p)
      n.toNat _ _ _ hnodup rfl rfl rfl rfl rfl
  by_cases hie : (((List.insertionSort gameLeDesc
      (st.games.filter (matchesWhere p))).take n.toNat).map
        (fun r => r.id)).isEmpty = true
  · have htk : (List.insertionSort gameLeDesc
        (st.games.filter (matchesWhere p))).take n.toNat = [] :=
      List.map_eq_nil_iff.mp (List.isEmpty_iff.mp hie)
    have hD0 : List.insertionSort gameLeDesc
        (st.games.filter (matchesWhere p)) = [] := by
      rcases List.take_eq_nil_iff.mp htk with h | h
      · exact absurd h (by omega)
      · exact h
    have hM0 : st.games.filter (matchesWhere p) = [] := by
      have hp2 := List.perm_insertionSort gameLeDesc
        (st.games.filter (matchesWhere p))
      rw [hD0] at hp2
      exact hp2.symm.eq_nil
    have hout : getGames st p = [] := by
      rw [hget, hsel, if_pos hie]
      rfl
    refine ⟨?_, ?_, ?_, ?_, ?_⟩
    · rw [hout, hM0]
      simp
    · rw [hout]
      simp
    · rw [hout]
      exact List.Pairwise.nil
    · intro go hgo
      rw [hout] at hgo
      simp at hgo
    · intro go hgo
      rw [hout] at hgo
      simp at hgo
  · have hout : getGames st p = buildOutputs st p
        (List.insertionSort gameLeAsc (st.games.filter (fun g =>
          g.id ∈ ((List.insertionSort gameLeDesc
            (st.games.filter (matchesWhere p))).take n.toNat).map
              (fun r => r.id)))) := by
      rw [hget, hsel, if_neg hie]
    refine ⟨?_, ?_, ?_, ?_, ?_⟩
    · rw [hout, buildOutputs_length]
      exact hlen
    · rw [hout, buildOutputs_length, hlen]
      exact Nat.min_le_left _ _
    · rw [hout]
      exact buildOutputs_pairwise _ _ _ hsorted
    · intro go hgo
      rw [hout] at hgo
      obtain ⟨g, hgG, hid, hts⟩ := buildOutputs_mem st p _ go hgo
      obtain ⟨h1, h2⟩ := hmemM g hgG
      exact ⟨g, h1, h2, hid, hts⟩
    · intro go hgo gr hgr hgrm hnone
      rw [hout] at hgo
      obtain ⟨g, hgG, hid, hts⟩ := buildOutputs_mem st p _ go hgo
      have hnone2 : ∀ g2, g2 ∈ List.insertionSort gameLeAsc
          (st.games.filter (fun g3 =>
            g3.id ∈ ((List.insertionSort gameLeDesc
              (st.games.filter (matchesWhere p))).take n.toNat).map
                (fun r => r.id))) → g2.id ≠ gr.id := by
        intro g2 hg2 heq
        obtain ⟨go2, hgo2, hgo2id, hgo2ts⟩ :=
          buildOutputs_mem_rev st p _ g2 hg2
        refine hnone go2 ?_ ?_
        · rw [hout]
          exact hgo2
        · rw [hgo2id, heq]
      have h8 := hthresh g hgG gr hgr hgrm hnone2
      rw [hts]
      exact h8

/-- First stored game of the C8 witness, timestamp 10. -/
def c8g1 : GameRow :=
  { id := 1, filename := "10.lua", timestamp := 10, missionId := "m",
    missionName := "M", difficulty := 3, modifier := "", result := "won",
    durationSeconds := 100 }

/-- Second stored game of the C8 witness, timestamp 30. -/
def c8g2 : GameRow :=
  { id := 2, filename := "30.lua", timestamp := 30, missionId := "m",
    missionName := "M", difficulty := 3, modifier := "", result := "lost",
    durationSeconds := 200 }

/-- Third stored game of the C8 witness, timestamp 20. -/
def c8g3 : GameRow :=
  { id := 3, filename := "20.lua", timestamp := 20, missionId := "m",
    missionName := "M", difficulty := 3, modifier := "", result := "won",
    durationSeconds := 300 }

/-- Store of the C8 witness holding three games. -/
def c8st : Store :=
  { games := [c8g1, c8g2, c8g3], nextId := 4, players := [],
    gamePlayers := [], properties := [], scores := [] }

/-- Query parameters of the C8 witness: one requested property, no filters,
last-2 mode. -/
def c8p : GamesParams :=
  { propertyIds := ["x"], resultFilter := "", difficulties := [],
    missions := [], modifiers := [], startTime := none, endTime := none,
    lastNGames := some 2 }

/-- Witness for C8: on a three-game store with last-2 selection the
hypotheses hold concretely and the query returns at most two records in
ascending timestamp order. -/
theorem c8_witness :
    c8p.lastNGames = some 2 ∧ (0 : Int) < 2 ∧ c8p.propertyIds ≠ [] ∧
      (c8st.games.map (fun g => g.id)).Nodup ∧
      (getGames c8st c8p).length ≤ (2 : Int).toNat ∧
      List.Pairwise (fun a b : GameOut => a.timestamp ≤ b.timestamp)
        (getGames c8st c8p) :=
  ⟨rfl, by decide, by decide, by decide,
   (c8_lastN_most_recent c8st c8p 2 rfl (by decide) (by decide)
     (by decide)).2.1,
   (c8_lastN_most_recent c8st c8p 2 rfl (by decide) (by decide)
     (by decide)).2.2.1⟩

end DST
